import Mathlib

/-!
# Graph page controls (`graph_1.25.js`)

A shallow embedding of the page script that drives the alloy comparison graph:
the tooltip lookup requests (`zkAjaxReqFn`, `zkTltip.responseReady`,
`zkTltip.zkOnHide`), the name input (`lk2SgV`, `GraphCtl.getSuggestions`,
`GraphCtl.onSubmit`, `GraphCtl.formUrl`) and the hover hit test
(`zkTltip.getGRHoverData`).

JavaScript strings are modelled as lists of characters, `null` as `none`.
Browser objects that the script only consumes (XMLHttpRequest, the dialog
widget, `encodeURIComponent`, `JSON.parse`, `htmlscEc`, `htmlsceDc`) appear as
explicit state or as parameters.
-/

namespace SteelGraph

/-- A JavaScript string, as the sequence of its characters. -/
abbrev JSStr := List Char

/-! ## Tooltip lookup requests -/

/-- What a completed lookup request carries, as far as `zkTltip.responseReady` looks at it.
`data`: status 200 and a body that `JSON.parse` turns into a non-null value;
`nullBody`: status 200 and a body that parses to `null`, so that reading `rspObj.msg`
throws; `unparseable`: status 200 and a non-empty body on which `JSON.parse` throws;
`noData`: another status or an empty body. -/
inductive Reply
  | data
  | nullBody
  | unparseable
  | noData
  deriving DecidableEq, Repr

/-- Progress of one XMLHttpRequest created by `createAjaxReq`, after `open`/`send`.
`aborting` is the moment inside `abort()` at which `readyState` is 4 and the handler is
called; once `abort()` has returned (`aborted`) `readyState` is 0. -/
inductive XhrStatus
  | inFlight
  | done (reply : Reply)
  | aborting
  | aborted
  deriving DecidableEq, Repr

/-- One XMLHttpRequest object. `handlerLive` is true while `onreadystatechange` is the
closure installed by `zkAjaxReqFn`, false once it has been replaced by `function(){}`;
`val` is the `val` captured by that closure. -/
structure Xhr where
  handlerLive : Bool
  val : Option JSStr
  status : XhrStatus
  deriving DecidableEq, Repr

/-- The fields of `zkTltip` used by the lookup code, with the request objects created so
far. `req` is an index into `xhrs` (`none` is `null`). -/
structure TipState where
  xhrs : List Xhr
  req : Option Nat
  lastVal : Option JSStr
  respRecd : Bool
  deriving DecidableEq, Repr

/-- State after the script has loaded: `zkTltip.req = null; zkTltip.lastVal = null;`. -/
def tipInit : TipState := { xhrs := [], req := none, lastVal := none, respRecd := false }

/-- Apply `f` to the object at index `i`. -/
def updAt (f : Xhr → Xhr) : Nat → List Xhr → List Xhr
  | _, [] => []
  | 0, x :: xs => f x :: xs
  | n + 1, x :: xs => x :: updAt f n xs

/-- Assignment `r.onreadystatechange = function(){}`. -/
def clearHandler (r : Nat) (s : TipState) : TipState :=
  { s with xhrs := updAt (fun x => { x with handlerLive := false }) r s.xhrs }

/-- Give request `i` the status `st`. -/
def setStatus (st : XhrStatus) (i : Nat) (s : TipState) : TipState :=
  { s with xhrs := updAt (fun x => { x with status := st }) i s.xhrs }

/-- Test `r.readyState === 4`: the request has completed, or is inside `abort()`. -/
def readyState4 (s : TipState) (r : Nat) : Bool :=
  match s.xhrs[r]? with
  | some x =>
    match x.status with
    | XhrStatus.done _ => true
    | XhrStatus.aborting => true
    | _ => false
  | none => false

/-- What `responseReady` finds in `req.status` and `req.responseText` of request `r`; a
request that has not completed has status 0 and no text. -/
def replyOf (s : TipState) (r : Nat) : Reply :=
  match s.xhrs[r]? with
  | some x =>
    match x.status with
    | XhrStatus.done reply => reply
    | _ => Reply.noData
  | none => Reply.noData

/-- Function `zkTltip.responseReady(req, stl)`. When `JSON.parse` throws, nothing has been
changed yet. Otherwise the handler of `req` is cleared and `respRecd` set; the tip body is
then generated from `rspObj.msg` (not modelled), which throws for a `null` `rspObj`; only
after that is `zkTltip.req` set to `null`. -/
def responseReady (r : Nat) (s : TipState) : TipState :=
  match replyOf s r with
  | Reply.unparseable => s
  | Reply.nullBody => { clearHandler r s with respRecd := true }
  | _ => { clearHandler r s with respRecd := true, req := none }

/-- The browser calls `onreadystatechange` of request `i`. The closure installed by
`zkAjaxReqFn` is `if (ztip.req && ztip.req.readyState === 4) ztip.responseReady(ztip.req, val)`. -/
def fireHandler (i : Nat) (s : TipState) : TipState :=
  match s.xhrs[i]? with
  | some x =>
    if x.handlerLive then
      match s.req with
      | some r => if readyState4 s r then responseReady r s else s
      | none => s
    else s
  | none => s

/-- Method `abort()` of request `i`. A request in flight stops: its handler is called with
`readyState` 4, after which `readyState` is 0. A completed request goes to `readyState` 0
without an event. -/
def abort (i : Nat) (s : TipState) : TipState :=
  match s.xhrs[i]? with
  | some x =>
    match x.status with
    | XhrStatus.inFlight =>
      setStatus XhrStatus.aborted i (fireHandler i (setStatus XhrStatus.aborting i s))
    | XhrStatus.done _ => setStatus XhrStatus.aborted i s
    | _ => s
  | none => s

/-- Function `zkAjaxReqFn(queryString, val)`. `createOk` says whether `createAjaxReq()`
returns an object. The result is the new state and the returned boolean. The handler
call made by `open` (`readyState` 1 on the request that is `ztip.req` itself) does
nothing and is left out. -/
def zkAjaxReqFn (createOk : Bool) (val : Option JSStr) (s : TipState) : TipState × Bool :=
  let s1 :=
    match s.req with
    | some r => if s.lastVal ≠ val then abort r (clearHandler r s) else s
    | none => s
  if createOk then
    ({ s1 with
        xhrs := s1.xhrs ++ [{ handlerLive := true, val := val, status := XhrStatus.inFlight }],
        req := some s1.xhrs.length,
        lastVal := val }, true)
  else
    ({ s1 with req := none }, false)

/-- The network completes request `i` with `reply`: it reaches `readyState` 4 and its
handler is called. -/
def complete (i : Nat) (reply : Reply) (s : TipState) : TipState :=
  match s.xhrs[i]? with
  | some x =>
    if x.status = XhrStatus.inFlight then
      fireHandler i (setStatus (XhrStatus.done reply) i s)
    else s
  | none => s

/-- Request `i`, still in flight, reaches `readyState` 2 or 3 and its handler is called. -/
def progress (i : Nat) (s : TipState) : TipState :=
  match s.xhrs[i]? with
  | some x => if x.status = XhrStatus.inFlight then fireHandler i s else s
  | none => s

/-- The `zkTltip` fields that `resetReqFlags` (tooltip library) may rewrite. -/
structure TipFlags where
  req : Option Nat
  lastVal : Option JSStr
  respRecd : Bool

/-- Function `zkTltip.zkOnHide()`. `resetReqFlags` belongs to the tooltip library and is
taken as a parameter acting on the `zkTltip` fields. -/
def zkOnHide (resetReqFlags : TipFlags → TipFlags) (s : TipState) : TipState :=
  match s.req with
  | some r =>
    let s1 := abort r (clearHandler r s)
    let fl := resetReqFlags { req := s1.req, lastVal := s1.lastVal, respRecd := s1.respRecd }
    { s1 with req := fl.req, lastVal := fl.lastVal, respRecd := fl.respRecd }
  | none => s

/-- What can happen to the lookup state. -/
inductive TipEvent
  | ajaxReq (createOk : Bool) (val : Option JSStr)
  | progress (i : Nat)
  | completed (i : Nat) (reply : Reply)
  | onHide
  deriving DecidableEq, Repr

/-- One step of the lookup state. -/
def tipStep (resetReqFlags : TipFlags → TipFlags) (s : TipState) : TipEvent → TipState
  | TipEvent.ajaxReq ok val => (zkAjaxReqFn ok val s).1
  | TipEvent.progress i => progress i s
  | TipEvent.completed i reply => complete i reply s
  | TipEvent.onHide => zkOnHide resetReqFlags s

/-- Run a sequence of events. -/
def tipRun (resetReqFlags : TipFlags → TipFlags) : TipState → List TipEvent → TipState
  | s, [] => s
  | s, e :: es => tipRun resetReqFlags (tipStep resetReqFlags s e) es

/-- Number of requests in flight. -/
def inFlightCount (s : TipState) : Nat :=
  (s.xhrs.filter (fun x => decide (x.status = XhrStatus.inFlight))).length

/-- The request tracked in `zkTltip.req` is still in flight. -/
def trackedInFlight (s : TipState) : Bool :=
  match s.req with
  | some r =>
    match s.xhrs[r]? with
    | some x => decide (x.status = XhrStatus.inFlight)
    | none => false
  | none => false

/-- No call of `zkAjaxReqFn` passes a `val` equal to `zkTltip.lastVal` while the request
tracked in `zkTltip.req` is still in flight. -/
def freshVals (resetReqFlags : TipFlags → TipFlags) : TipState → List TipEvent → Bool
  | _, [] => true
  | s, e :: es =>
    (match e with
      | TipEvent.ajaxReq _ val => decide (trackedInFlight s = false ∨ s.lastVal ≠ val)
      | _ => true)
    && freshVals resetReqFlags (tipStep resetReqFlags s e) es

/-- Every request in flight is the one tracked in `zkTltip.req`. -/
def InFlightTracked (s : TipState) : Prop :=
  ∀ (i : Nat) (x : Xhr), s.xhrs[i]? = some x → x.status = XhrStatus.inFlight →
    s.req = some i

/-- Every request on which `abort()` has been called had its handler cleared. -/
def AbortedCleared (s : TipState) : Prop :=
  ∀ (i : Nat) (x : Xhr), s.xhrs[i]? = some x → x.status = XhrStatus.aborted →
    x.handlerLive = false

/-- No request is in flight. -/
def NoneInFlight (xs : List Xhr) : Prop :=
  ∀ (i : Nat) (x : Xhr), xs[i]? = some x → x.status ≠ XhrStatus.inFlight

/-- Two lookups for the same name, the second issued before the first has completed. -/
def sameValTwice : List TipEvent :=
  [TipEvent.ajaxReq true (some "T15".toList), TipEvent.ajaxReq true (some "T15".toList)]

/-- A lookup superseded by a lookup for another name, which then completes with a body
that does not parse; a lookup for a third name is hidden before it completes, and the
same name is looked up again. -/
def supersededRun : List TipEvent :=
  [TipEvent.ajaxReq true (some "T15".toList), TipEvent.ajaxReq true (some "M2".toList),
   TipEvent.progress 1, TipEvent.completed 1 Reply.unparseable,
   TipEvent.ajaxReq true (some "D2".toList), TipEvent.onHide,
   TipEvent.ajaxReq true (some "D2".toList)]

/-- Two lookups for the same name; the second is hidden, then the first completes. -/
def hiddenThenReply : List TipEvent :=
  [TipEvent.ajaxReq true (some "T15".toList), TipEvent.ajaxReq true (some "T15".toList),
   TipEvent.onHide, TipEvent.completed 0 Reply.data]

/-! ## Hover hit test over the graph image -/

/-- A point or offset in page pixels. -/
structure Point where
  x : Int
  y : Int
  deriving DecidableEq, Repr

/-- Field `rect` of a `vectData` entry. -/
structure Rect where
  x : Int
  y : Int
  w : Int
  h : Int
  deriving DecidableEq, Repr

/-- One entry of the page's `vectData` array. -/
structure VectEntry where
  rect : Rect
  text : JSStr
  ttl : JSStr
  deriving DecidableEq, Repr

/-- Calls into the tooltip and event libraries made by the hover code. -/
inductive HoverCall
  | process (text ttl : JSStr)
  | removeMouseout
  | addMouseout
  | rmvTip (dlyHide : Int)
  deriving DecidableEq, Repr

/-- The `zkTltip` fields used by the hover code, with the library calls made so far. -/
structure HoverState where
  activeImgTip : Int
  respRecd : Bool
  dlyHide : Int
  calls : List HoverCall
  deriving DecidableEq, Repr

/-- Function `zkTltip.rmvTipND(e)`. -/
def rmvTipND (s : HoverState) : HoverState :=
  if s.activeImgTip ≥ 0 then
    let o := s.dlyHide
    let s1 := { s with dlyHide := 0 }
    let s2 := { s1 with calls := s1.calls ++ [HoverCall.rmvTip s1.dlyHide] }
    let s3 := { s2 with dlyHide := o }
    { s3 with activeImgTip := -1 }
  else s

/-- The test of the loop body of `getGRHoverData`:
`x >= oRect.x && x <= oRect.x + oRect.w && y >= oRect.y && y <= oRect.y + oRect.h`. -/
def hitTest (x y : Int) (oRect : Rect) : Bool :=
  decide (x ≥ oRect.x) && decide (x ≤ oRect.x + oRect.w) &&
    decide (y ≥ oRect.y) && decide (y ≤ oRect.y + oRect.h)

/-- The loop `for (i = 0; i < l; i++)` of `getGRHoverData`, started at index `i` on the
remaining entries: the index and entry at which the loop body returns, if any. -/
def scanRects (x y : Int) : List VectEntry → Nat → Option (Nat × VectEntry)
  | [], _ => none
  | o :: rest, i => if hitTest x y o.rect then some (i, o) else scanRects x y rest (i + 1)

/-- Function `zkTltip.getGRHoverData(e, tgt)`. `cmx`, `cmy` are the saved mouse
coordinates, `imgOffset` is `getPgOffsets(img)`, `sc` is `getElScroll(img)`, and
`attachEvent` says whether `window.attachEvent` exists. -/
def getGRHoverData (attachEvent : Bool) (vectData : List VectEntry) (cmx cmy : Int)
    (imgOffset sc : Point) (s : HoverState) : HoverState × Bool :=
  let x := cmx - imgOffset.x + sc.x
  let y := cmy - imgOffset.y
  let s := { s with respRecd := true }
  match scanRects x y vectData 0 with
  | some (i, o) =>
    if s.activeImgTip ≠ (i : Int) then
      let s := { s with calls := s.calls ++ [HoverCall.process o.text o.ttl] }
      let s := if attachEvent then { s with calls := s.calls ++ [HoverCall.removeMouseout] } else s
      let s := { s with calls := s.calls ++ [HoverCall.addMouseout] }
      ({ s with activeImgTip := (i : Int) }, true)
    else (s, true)
  | none => (rmvTipND s, false)

/-- The point lies in the rectangle, all four edges included. -/
def InRect (x y : Int) (r : Rect) : Prop :=
  r.x ≤ x ∧ x ≤ r.x + r.w ∧ r.y ≤ y ∧ y ≤ r.y + r.h

/-! ## String helpers of the name input -/

/-- The scan behind `String.prototype.lastIndexOf` for a one-character search string:
`i` is the index of the head of the remaining characters, `found` the last index seen. -/
def lastIndexOfFrom (c : Char) : JSStr → Nat → Int → Int
  | [], _, found => found
  | d :: ds, i, found => lastIndexOfFrom c ds (i + 1) (if d = c then (i : Int) else found)

/-- Method `s.lastIndexOf(c)`: the index of the last occurrence of `c`, or `-1`. -/
def lastIndexOf (c : Char) (s : JSStr) : Int :=
  lastIndexOfFrom c s 0 (-1)

/-- Clamp an index argument of `substring` to `0 .. len`. -/
def clampIdx (len : Nat) (a : Int) : Nat :=
  min a.toNat len

/-- Method `s.substring(a, b)`: both indices are clamped to `0 .. s.length` and swapped
when `a > b`. -/
def substring (s : JSStr) (a b : Int) : JSStr :=
  let a' := clampIdx s.length a
  let b' := clampIdx s.length b
  (s.drop (min a' b')).take (max a' b' - min a' b')

/-- Function `lk2SgV(inStr)`. -/
def lk2SgV (inStr : JSStr) : JSStr :=
  let parenIdx := lastIndexOf '(' inStr
  if parenIdx ≥ 0 then substring inStr 0 parenIdx else inStr

/-- Call `val.replace(/%/g, '')`. -/
def removePercent (val : JSStr) : JSStr :=
  val.filter (fun c => c != '%')

/-- Call `val.replace(/\*/g, '%')`. -/
def starToPercent (val : JSStr) : JSStr :=
  val.map (fun c => if c = '*' then '%' else c)

/-- Function `GraphCtl.getSuggestions()` up to the call of `ajaxGetReq`: the query string
of the lookup request it issues for the value `nmValue` of the name input, or `none`
when it issues no request. `htmlscEc` and `encodeURIComponent` are taken as parameters. -/
def getSuggestions (htmlscEc encodeURIComponent : JSStr → JSStr) (nmValue : JSStr) :
    Option JSStr :=
  if nmValue ≠ [] then
    let val := nmValue
    let lastComa := lastIndexOf ',' val
    let val := if lastComa ≠ -1 then substring val (lastComa + 1) val.length else val
    if val ≠ [] then
      let val := removePercent val
      if val ≠ [] ∧ val ≠ ['*'] then
        let val := starToPercent val
        let val := htmlscEc val
        some ("php/stlajax.php?val=".toList ++ encodeURIComponent val)
      else none
    else none
  else none

/-- The fragment of `v` after its last comma; all of `v` when it has no comma. -/
def lastFragment (v : JSStr) : JSStr :=
  (v.reverse.takeWhile (fun c => c != ',')).reverse

/-- An `htmlscEc` for examples: escapes `&` only. -/
def escAmp (s : JSStr) : JSStr :=
  s.flatMap (fun c => if c = '&' then "&amp;".toList else [c])

/-! ## Building the graph URL -/

/-- The controls read by `GraphCtl.formUrl`: the value of the selected `sz` option, the
`avg` and `hrn` checkboxes and `$('gm').selectedIndex`. -/
structure Controls where
  szVal : JSStr
  avgChecked : Bool
  hrnChecked : Bool
  gmSelectedIndex : Int
  deriving DecidableEq, Repr

/-- Field `GraphCtl.defSz`. -/
def defSz : JSStr := ['2']

/-- String conversion of an array element inside `join`: `null` gives the empty string. -/
def elemStr : Option JSStr → JSStr
  | some s => s
  | none => []

/-- Method `ni.join(',')`. -/
def joinComma : List (Option JSStr) → JSStr
  | [] => []
  | [a] => elemStr a
  | a :: b :: rest => elemStr a ++ ',' :: joinComma (b :: rest)

/-- Method `s.charAt(i)`: the one-character string at index `i`, empty when out of range. -/
def charAt (s : JSStr) (i : Int) : JSStr :=
  if i < 0 then [] else
    match s[i.toNat]? with
    | some c => [c]
    | none => []

/-- Function `GraphCtl.formUrl(bHasId, ni, el, nmv)`: the string assigned to
`document.location.href`. `encodeURIComponent` is taken as a parameter. -/
def formUrl (encodeURIComponent : JSStr → JSStr) (c : Controls) (bHasId : Bool)
    (ni : List (Option JSStr)) (el nmv : JSStr) : JSStr :=
  let szVal := c.szVal
  let dstRef := "steelgraph.php?nm=".toList ++ encodeURIComponent nmv
  let dstRef := if bHasId then dstRef ++ "&ni=".toList ++ joinComma ni else dstRef
  let dstRef := if szVal ≠ defSz then dstRef ++ "&sz=".toList ++ szVal else dstRef
  let dstRef :=
    if el.length ≠ 0 then
      let el := if charAt el ((el.length : Int) - 1) = [','] then
          substring el 0 ((el.length : Int) - 1) else el
      dstRef ++ "&el=".toList ++ encodeURIComponent el
    else dstRef
  let dstRef := if c.avgChecked = true then dstRef ++ "&avg=1".toList else dstRef
  let t := if c.hrnChecked then ['1'] else ['0']
  let dstRef := dstRef ++ "&hrn=".toList ++ t
  let dstRef := dstRef ++ "&gm=".toList ++ (toString c.gmSelectedIndex).toList
  dstRef

/-- The element list with one trailing comma removed. -/
def dropTrailingComma (el : JSStr) : JSStr :=
  if el.getLast? = some ',' then el.dropLast else el

/-! ## Submitting the name list -/

/-- Prefix `DFPX` of the placeholder text of the name input. -/
def DFPX : JSStr := "Type in".toList

/-- An alert dialog (`zDlgAlrt`) with the title and content given to it. -/
structure Dialog where
  title : JSStr
  content : JSStr
  deriving DecidableEq, Repr

/-- Value of the property `GraphCtl.errdlg`: absent from the object (`undefined`), `null`,
or a dialog. -/
inductive DlgRef
  | undefined
  | null
  | dlg (d : Dialog)
  deriving DecidableEq, Repr

/-- An entry of `GraphCtl.nrIds`: `{name, nid, namePos}`; `nid` may be `null`. -/
structure NameRec where
  name : JSStr
  nid : Option JSStr
  namePos : Nat
  deriving DecidableEq, Repr

/-- The mutable state touched by `GraphCtl.onSubmit`: `GraphCtl.errdlg`, `GraphCtl.nrIds`
(entries may be `null`) and the value of the name input `$('nm')`. -/
structure GraphCtlState where
  errdlg : DlgRef
  nrIds : List (Option NameRec)
  nmValue : JSStr
  deriving DecidableEq, Repr

/-- The `GraphCtl` object literal has `nrIds: []` and no `errdlg` property. -/
def graphCtlLiteral (nmValue : JSStr) : GraphCtlState :=
  { errdlg := DlgRef.undefined, nrIds := [], nmValue := nmValue }

/-- A filter checkbox: its `checked` flag and `value`. -/
structure Checkbox where
  checked : Bool
  value : JSStr
  deriving DecidableEq, Repr

/-- Field `GraphCtl.elements`. -/
def elements : List JSStr :=
  ["C", "Cr", "Co", "Cu", "Mn", "Mo", "N", "Nb", "Ni", "P", "S", "Si", "W", "V"].map String.toList

/-- Method `ecVal.split(',')`: `cur` is the piece being read. -/
def splitCommaFrom : JSStr → JSStr → List JSStr
  | [], cur => [cur]
  | c :: cs, cur => if c = ',' then cur :: splitCommaFrom cs [] else splitCommaFrom cs (cur ++ [c])

/-- Method `ecVal.split(',')`. -/
def splitComma (s : JSStr) : List JSStr :=
  splitCommaFrom s []

/-- The inner loop `for (j = 0; j < nl; j++)` of `onSubmit`, started at index `j` on the
remaining entries: the index and record at which it breaks, if any. `sname r` is
`htmlsceDc(lk2SgV(r.name.toLowerCase()))` and `target` is `snms[i].toLowerCase()`. -/
def findRowId (sname : NameRec → JSStr) (target : JSStr) :
    List (Option NameRec) → Nat → Option (Nat × NameRec)
  | [], _ => none
  | none :: rest, j => findRowId sname target rest (j + 1)
  | some r :: rest, j =>
    if sname r = target then some (j, r) else findRowId sname target rest (j + 1)

/-- The variables updated by the outer loop of `onSubmit`. -/
structure RowIdVars where
  nrids : List (Option NameRec)
  ni : List (Option JSStr)
  bHasId : Bool
  deriving DecidableEq, Repr

/-- The outer loop `for (i = 0; i < snmLen; i++)` of `onSubmit` over the remaining names. -/
def rowIdLoop (toLowerCase : JSStr → JSStr) (sname : NameRec → JSStr) :
    List JSStr → RowIdVars → RowIdVars
  | [], v => v
  | snm :: rest, v =>
    match findRowId sname (toLowerCase snm) v.nrids 0 with
    | some (j, r) =>
      rowIdLoop toLowerCase sname rest
        { nrids := v.nrids.set j none, ni := v.ni ++ [r.nid], bHasId := true }
    | none =>
      rowIdLoop toLowerCase sname rest { v with ni := v.ni ++ [some []] }

/-- The block `if ( gct.nrIds.length > 0 ) { ... }` of `onSubmit`, given `snms`. -/
def rowIds (toLowerCase htmlsceDc : JSStr → JSStr) (snms : List JSStr)
    (nrIds : List (Option NameRec)) : RowIdVars :=
  if nrIds.length > 0 then
    rowIdLoop toLowerCase (fun r => htmlsceDc (lk2SgV (toLowerCase r.name))) snms
      { nrids := nrIds, ni := [], bHasId := false }
  else { nrids := nrIds, ni := [], bHasId := false }

/-- The loop of `onSubmit` over `GraphCtl.elements`: `el += chk.value + ','` for every
checkbox that exists and is checked. -/
def checkedElements (box : JSStr → Option Checkbox) : List JSStr → JSStr → JSStr
  | [], el => el
  | id :: rest, el =>
    match box id with
    | some chk => if chk.checked then checkedElements box rest (el ++ chk.value ++ [','])
      else checkedElements box rest el
    | none => checkedElements box rest el

/-- How a call of `GraphCtl.onSubmit` ends. -/
inductive SubmitOutcome
  | typeError
  | alerted (d : Dialog)
  | formUrlCalled (bHasId : Bool) (ni : List (Option JSStr)) (el nmv : JSStr) (href : JSStr)
  deriving DecidableEq, Repr

/-- Function `GraphCtl.onSubmit()`. `box` gives the filter checkbox for an element id
(`$(ge[i])`), `c` the controls read by `formUrl`; `toLowerCase`, `htmlsceDc` and
`encodeURIComponent` are taken as parameters. Reading `container` of an `errdlg` that is
`undefined` throws a `TypeError`. -/
def onSubmit (toLowerCase htmlsceDc encodeURIComponent : JSStr → JSStr)
    (box : JSStr → Option Checkbox) (c : Controls) (s : GraphCtlState) :
    SubmitOutcome × GraphCtlState :=
  let ecVal := s.nmValue
  if ecVal = [] ∨ ecVal.length = 0 ∨ DFPX.isPrefixOf ecVal = true then
    let s1 :=
      match s.errdlg with
      | DlgRef.null =>
        { s with errdlg := DlgRef.dlg (Dialog.mk "Error!".toList
            "You must specify at least one alloy to build the graph!".toList) }
      | _ => s
    match s1.errdlg with
    | DlgRef.dlg d => (SubmitOutcome.alerted d, s1)
    | _ => (SubmitOutcome.typeError, s1)
  else
    let lastComa := lastIndexOf ',' ecVal
    let ecVal1 := if lastComa = (ecVal.length : Int) - 1 then substring ecVal 0 lastComa else ecVal
    let s1 := { s with nmValue := ecVal1 }
    let v := rowIds toLowerCase htmlsceDc (splitComma ecVal1) s1.nrIds
    let el := checkedElements box elements []
    (SubmitOutcome.formUrlCalled v.bHasId v.ni el ecVal1
        (formUrl encodeURIComponent c v.bHasId v.ni el ecVal1),
      { s1 with nrIds := v.nrids })

/-- Controls left at their defaults. -/
def defaultControls : Controls :=
  { szVal := ['2'], avgChecked := false, hrnChecked := false, gmSelectedIndex := 0 }

/-- A page on which no filter checkbox is checked. -/
def noBoxes : JSStr → Option Checkbox := fun _ => none

/-! ### What the row-id loop is meant to compute

`m` lists, per submitted name, the index of the `nrIds` record matched to it (`none` when
nothing was matched). -/

/-- Record `j` was matched to a name before name `i`. -/
def ConsumedBefore (m : List (Option Nat)) (i j : Nat) : Prop :=
  ∃ k : Nat, k < i ∧ m[k]? = some (some j)

/-- Record `r` at index `j` of `nrIds` is non-null, not consumed before name `i`, and its
name equals `target`. -/
def Candidate (sname : NameRec → JSStr) (nrIds : List (Option NameRec))
    (m : List (Option Nat)) (i : Nat) (target : JSStr) (j : Nat) (r : NameRec) : Prop :=
  nrIds[j]? = some (some r) ∧ ¬ ConsumedBefore m i j ∧ sname r = target

/-- Entry `i` of `ni` is the `nid` of the first candidate record for name `i`, which is the
record `m` matches to it; it is the empty string when there is no candidate. -/
def RowIdOf (sname : NameRec → JSStr) (nrIds : List (Option NameRec))
    (m : List (Option Nat)) (ni : List (Option JSStr)) (i : Nat) (target : JSStr) : Prop :=
  (∀ j : Nat, m[i]? = some (some j) →
    ∃ r : NameRec, Candidate sname nrIds m i target j r ∧
      (∀ (j' : Nat) (r' : NameRec), j' < j → ¬ Candidate sname nrIds m i target j' r') ∧
      ni[i]? = some r.nid) ∧
  (m[i]? = some none →
    (∀ (j : Nat) (r : NameRec), ¬ Candidate sname nrIds m i target j r) ∧
      ni[i]? = some (some []))

/-- Loop invariant of the outer loop of `onSubmit` after the names `names`. -/
def RowIdInv (toLowerCase : JSStr → JSStr) (sname : NameRec → JSStr)
    (nrIds : List (Option NameRec)) (names : List JSStr) (m : List (Option Nat))
    (v : RowIdVars) : Prop :=
  m.length = names.length ∧ v.ni.length = names.length ∧
  (∀ (j : Nat) (r : NameRec), v.nrids[j]? = some (some r) ↔
    nrIds[j]? = some (some r) ∧ ¬ ConsumedBefore m names.length j) ∧
  (∀ (i : Nat) (snm : JSStr), names[i]? = some snm →
    RowIdOf sname nrIds m v.ni i (toLowerCase snm)) ∧
  (v.bHasId = true ↔ ∃ i j : Nat, m[i]? = some (some j))

/-- An ASCII `toLowerCase` for examples. -/
def asciiLower (s : JSStr) : JSStr :=
  s.map Char.toLower

/-- Names submitted in an example: the same alloy twice, then another one. -/
def exampleNames : List JSStr :=
  ["m2", "m2", "t15"].map String.toList

/-- Recorded row ids in an example: one record for `M2` picked from the suggestions, a
slot already set to `null`, and a record for `T15`. -/
def exampleNrIds : List (Option NameRec) :=
  [some { name := "M2(AISI)".toList, nid := some "4620".toList, namePos := 0 },
   none,
   some { name := "T15".toList, nid := some "71".toList, namePos := 2 }]

/-- A page state for an example: the names `m2,m2,t15,` are in the input and
`exampleNrIds` holds the recorded row ids. -/
def exampleSubmit : GraphCtlState :=
  { errdlg := DlgRef.undefined, nrIds := exampleNrIds, nmValue := "m2,m2,t15,".toList }

/-! ## Autosuggest response -/

/-- A value returned by `JSON.parse`. A number keeps its source text. -/
inductive Json
  | null
  | bool (b : Bool)
  | num (text : JSStr)
  | str (s : JSStr)
  | arr (items : List Json)
  | obj (fields : List (JSStr × Json))

/-- Calls made on `suggestionsObj` by the `onReady` callback. -/
inductive SgCall
  | show (valArray : Json)
  | hide

/-- The test `valArray.length > 0` on a non-null value. Only arrays and strings have a
numeric `length` of their own; for an object the comparison of its `length` property with
`0` is left to `gtZero`. -/
def lengthGtZero (gtZero : Json → Bool) : Json → Bool
  | Json.arr items => decide (items.length > 0)
  | Json.str s => decide (s.length > 0)
  | Json.obj fields =>
    match fields.lookup "length".toList with
    | some v => gtZero v
    | none => false
  | _ => false

/-- The `onReady` callback of `GraphCtl.getSuggestions`, for a request with the given
`responseText`: the calls it makes on `suggestionsObj`, or `none` when `JSON.parse`
throws. `parse` is `JSON.parse`, `isVisible` the result of `suggestionsObj.isVisible()`. -/
def onReady (parse : JSStr → Option Json) (gtZero : Json → Bool) (isVisible : Bool)
    (responseText : JSStr) : Option (List SgCall) :=
  let parsed : Option Json :=
    if responseText ≠ [] then parse responseText else some Json.null
  match parsed with
  | none => none
  | some valArray =>
    let notNull : Bool :=
      match valArray with
      | Json.null => false
      | _ => true
    if notNull && lengthGtZero gtZero valArray then
      some [SgCall.show valArray]
    else if isVisible then
      some [SgCall.hide]
    else
      some []

/-- A `JSON.parse` for examples: it knows the text `"abc"` (a JSON string) and the text
`[]`, and throws on anything else. -/
def exampleParse (text : JSStr) : Option Json :=
  if text = ['"', 'a', 'b', 'c', '"'] then some (Json.str ['a', 'b', 'c'])
  else if text = ['[', ']'] then some (Json.arr [])
  else none

/-! ## Recording row ids for name positions -/

/-- Placeholder text `STLINPMSG` of the name input. -/
def STLINPMSG : JSStr :=
  "Type in comma separated alloy names, use autosuggest for assist".toList

/-- The loop `for ( i = 0; i < nms.length; i++ )` of `initRIds`, at index `i` over the
remaining names; `nis` is `ni.split(',')`. -/
def initRIdsLoop (nis : List JSStr) :
    List JSStr → Nat → List (Option NameRec) → List (Option NameRec)
  | [], _, nrIds => nrIds
  | nm :: rest, i, nrIds =>
    let nid : Option JSStr := if i < nis.length then nis[i]? else none
    initRIdsLoop nis rest (i + 1) (nrIds ++ [some { name := nm, nid := nid, namePos := i }])

/-- Function `GraphCtl.initRIds()`. `nmCtl` is `decodeURIComponent(getQryParam('nm'))`,
`ni` is `getQryParam('ni')` (`none` is `null`). -/
def initRIds (nmCtl : JSStr) (ni : Option JSStr) (nrIds : List (Option NameRec)) :
    List (Option NameRec) :=
  match ni with
  | some niStr =>
    if niStr ≠ [] ∧ nmCtl ≠ [] then
      initRIdsLoop (splitComma niStr) (splitComma nmCtl) 0 nrIds
    else nrIds
  | none => nrIds

/-- Function `GraphCtl.srchBl(e)` on the name input. `clrArray` is an array helper that
is not part of this script and is taken as a parameter. -/
def srchBl (clrArray : List (Option NameRec) → List (Option NameRec))
    (s : GraphCtlState) : GraphCtlState :=
  if s.nmValue.length = 0 then
    { s with nmValue := STLINPMSG, nrIds := clrArray s.nrIds }
  else s

/-- The suggestion picked when `setSelected` runs: the text of the link
`divLinks[curSel]` and the pair `this.nrIds[curSel]` of name and row id. -/
structure SgSelection where
  linkText : JSStr
  name : JSStr
  nid : Option JSStr
  deriving DecidableEq, Repr

/-- The value `setSelected` gives the input before it appends the comma: the text up to
and including the last comma, followed by the picked name `st`. -/
def selectedValue (st value : JSStr) : JSStr :=
  if value.length = 0 then st
  else
    let lastComa := lastIndexOf ',' value
    if lastComa ≠ -1 then substring value 0 (lastComa + 1) ++ st else st

/-- The loop `for ( i = 0; i < len; i++ )` of `setSelected` over the remaining entries:
every non-null entry whose `namePos` is `numNames` is replaced by `entry`, and
`posExists` becomes true. -/
def replaceLoop (numNames : Nat) (entry : NameRec) :
    List (Option NameRec) → Bool → List (Option NameRec) × Bool
  | [], posExists => ([], posExists)
  | none :: rest, posExists =>
    (none :: (replaceLoop numNames entry rest posExists).1,
      (replaceLoop numNames entry rest posExists).2)
  | some r :: rest, posExists =>
    if r.namePos = numNames then
      (some entry :: (replaceLoop numNames entry rest true).1,
        (replaceLoop numNames entry rest true).2)
    else
      (some r :: (replaceLoop numNames entry rest posExists).1,
        (replaceLoop numNames entry rest posExists).2)

/-- The name position `numNames` that `setSelected` records the picked suggestion for:
`suggestElem.value.split(',').length - 1` after the value has been rewritten. -/
def selectedPos (x : SgSelection) (s : GraphCtlState) : Nat :=
  (splitComma (selectedValue (lk2SgV x.linkText) s.nmValue)).length - 1

/-- Method `SuggestionsObj.prototype.setSelected()` on the name input. `sel` is `none`
when `this.divLinks === null` or `this.curSel < 0`, in which case the list is only
hidden; otherwise the link `divLinks[curSel]` and the pair `this.nrIds[curSel]` are taken
to exist, as they do after `show`. -/
def setSelected (sel : Option SgSelection) (s : GraphCtlState) : GraphCtlState :=
  match sel with
  | some x =>
    let st := lk2SgV x.linkText
    let value := selectedValue st s.nmValue
    let numNames := (splitComma value).length - 1
    let entry : NameRec := { name := x.name, nid := x.nid, namePos := numNames }
    let res := replaceLoop numNames entry s.nrIds false
    let nrIds := if res.2 = false then res.1 ++ [some entry] else res.1
    { s with nmValue := value ++ [','], nrIds := nrIds }
  | none => s

/-- What can happen to the name input and `GraphCtl.nrIds` after the page has loaded. -/
inductive CtlEvent
  | input (v : JSStr)
  | setSelected (sel : Option SgSelection)
  | srchBl
  | onSubmit (box : JSStr → Option Checkbox) (c : Controls)

/-- One step of the page state. -/
def ctlStep (toLowerCase htmlsceDc encodeURIComponent : JSStr → JSStr)
    (clrArray : List (Option NameRec) → List (Option NameRec)) (s : GraphCtlState) :
    CtlEvent → GraphCtlState
  | CtlEvent.input v => { s with nmValue := v }
  | CtlEvent.setSelected sel => setSelected sel s
  | CtlEvent.srchBl => srchBl clrArray s
  | CtlEvent.onSubmit box c => (onSubmit toLowerCase htmlsceDc encodeURIComponent box c s).2

/-- Run a sequence of events. -/
def ctlRun (toLowerCase htmlsceDc encodeURIComponent : JSStr → JSStr)
    (clrArray : List (Option NameRec) → List (Option NameRec)) :
    GraphCtlState → List CtlEvent → GraphCtlState
  | s, [] => s
  | s, e :: es =>
    ctlRun toLowerCase htmlsceDc encodeURIComponent clrArray
      (ctlStep toLowerCase htmlsceDc encodeURIComponent clrArray s e) es

/-- State after `GraphCtl.init()`: `initRIds` has run once on the empty `nrIds`. -/
def ctlInit (nmCtl : JSStr) (ni : Option JSStr) (errdlg : DlgRef) (nmValue : JSStr) :
    GraphCtlState :=
  { errdlg := errdlg, nrIds := initRIds nmCtl ni [], nmValue := nmValue }

/-- No two non-null entries have the same `namePos`. -/
def NoDupPos (l : List (Option NameRec)) : Prop :=
  ∀ (i j : Nat) (r1 r2 : NameRec), l[i]? = some (some r1) → l[j]? = some (some r2) →
    r1.namePos = r2.namePos → i = j

/-- A `clrArray` that empties the array. -/
def emptyArray (_ : List (Option NameRec)) : List (Option NameRec) := []

/-- A session: the page is opened for `M2,T15` with row ids `4620,71`; `T15` is replaced
by a pick for the same position, the list is submitted, and a third name is picked. -/
def exampleSession : List CtlEvent :=
  [CtlEvent.input "M2,T".toList,
   CtlEvent.setSelected
     (some (SgSelection.mk "T1(AISI)".toList "T1(AISI)".toList (some "88".toList))),
   CtlEvent.input "M2,T1".toList,
   CtlEvent.onSubmit noBoxes defaultControls,
   CtlEvent.input "M2,T1,".toList,
   CtlEvent.setSelected (some (SgSelection.mk "D2".toList "D2".toList (some "5".toList)))]

/-! ## Lemmas on the lookup state -/

theorem getElem?_updAt (f : Xhr → Xhr) (i : Nat) (xs : List Xhr) (j : Nat) :
    (updAt f i xs)[j]? = if j = i then (xs[j]?).map f else xs[j]? := by
  induction xs generalizing i j with
  | nil => cases i <;> simp [updAt]
  | cons x xs ih =>
    cases i with
    | zero => cases j <;> simp [updAt]
    | succ n =>
      cases j with
      | zero => simp [updAt]
      | succ m => simp [updAt, ih]

theorem getElem?_clearHandler (r : Nat) (s : TipState) (j : Nat) :
    (clearHandler r s).xhrs[j]? =
      if j = r then (s.xhrs[j]?).map (fun x => { x with handlerLive := false })
      else s.xhrs[j]? :=
  getElem?_updAt _ r s.xhrs j

theorem getElem?_setStatus (st : XhrStatus) (i : Nat) (s : TipState) (j : Nat) :
    (setStatus st i s).xhrs[j]? =
      if j = i then (s.xhrs[j]?).map (fun x => { x with status := st }) else s.xhrs[j]? :=
  getElem?_updAt _ i s.xhrs j

theorem fireHandler_of_not_live {s : TipState} {i : Nat} {x : Xhr}
    (hx : s.xhrs[i]? = some x) (hl : x.handlerLive = false) : fireHandler i s = s := by
  unfold fireHandler
  rw [hx]
  simp [hl]

/-- Calling a handler changes no status and sets no handler. -/
theorem fireHandler_getElem? (i : Nat) (s : TipState) (j : Nat) (x' : Xhr)
    (h : (fireHandler i s).xhrs[j]? = some x') :
    ∃ x : Xhr, s.xhrs[j]? = some x ∧ x'.status = x.status ∧
      (x.handlerLive = false → x'.handlerLive = false) := by
  have hclear : ∀ r : Nat, (clearHandler r s).xhrs[j]? = some x' →
      ∃ x : Xhr, s.xhrs[j]? = some x ∧ x'.status = x.status ∧
        (x.handlerLive = false → x'.handlerLive = false) := by
    intro r hr
    rw [getElem?_clearHandler] at hr
    split at hr
    · rcases hs : s.xhrs[j]? with _ | y
      · simp [hs] at hr
      · simp [hs] at hr
        subst hr
        exact ⟨y, rfl, rfl, fun _ => rfl⟩
    · exact ⟨x', hr, rfl, fun hl => hl⟩
  have hresp : ∀ r : Nat, (responseReady r s).xhrs[j]? = some x' →
      ∃ x : Xhr, s.xhrs[j]? = some x ∧ x'.status = x.status ∧
        (x.handlerLive = false → x'.handlerLive = false) := by
    intro r hr
    unfold responseReady at hr
    split at hr
    · exact ⟨x', hr, rfl, fun hl => hl⟩
    · exact hclear r hr
    · exact hclear r hr
  unfold fireHandler at h
  split at h
  · split at h
    · split at h
      · split at h
        · exact hresp _ h
        · exact ⟨x', h, rfl, fun hl => hl⟩
      · exact ⟨x', h, rfl, fun hl => hl⟩
    · exact ⟨x', h, rfl, fun hl => hl⟩
  · exact ⟨x', h, rfl, fun hl => hl⟩

/-- What `abort()` does to a request whose handler has been cleared. -/
theorem abort_clearHandler_spec (r : Nat) (s : TipState) :
    (abort r (clearHandler r s)).req = s.req ∧
    (abort r (clearHandler r s)).lastVal = s.lastVal ∧
    (∀ j : Nat, j ≠ r → (abort r (clearHandler r s)).xhrs[j]? = s.xhrs[j]?) ∧
    (s.xhrs[r]? = none → (abort r (clearHandler r s)).xhrs[r]? = none) ∧
    (∀ x : Xhr, s.xhrs[r]? = some x →
      ∃ st : XhrStatus, (abort r (clearHandler r s)).xhrs[r]? =
          some { handlerLive := false, val := x.val, status := st } ∧
        st ≠ XhrStatus.inFlight ∧ (x.status = XhrStatus.inFlight → st = XhrStatus.aborted)) := by
  rcases hs : s.xhrs[r]? with _ | x
  · have hc : (clearHandler r s).xhrs[r]? = none := by
      rw [getElem?_clearHandler]
      simp [hs]
    have ha : abort r (clearHandler r s) = clearHandler r s := by
      unfold abort
      rw [hc]
    rw [ha]
    refine ⟨rfl, rfl, ?_, fun _ => hc, fun x hx => by cases hx⟩
    intro j hj
    rw [getElem?_clearHandler, if_neg hj]
  · have hc : (clearHandler r s).xhrs[r]? =
        some { handlerLive := false, val := x.val, status := x.status } := by
      rw [getElem?_clearHandler]
      simp [hs]
    rcases hst : x.status with _ | reply | _ | _
    · have hfire : fireHandler r (setStatus XhrStatus.aborting r (clearHandler r s)) =
          setStatus XhrStatus.aborting r (clearHandler r s) := by
        apply @fireHandler_of_not_live _ r
          { handlerLive := false, val := x.val, status := XhrStatus.aborting }
        · rw [getElem?_setStatus, hc]
          simp
        · rfl
      have ha : abort r (clearHandler r s) = setStatus XhrStatus.aborted r
          (setStatus XhrStatus.aborting r (clearHandler r s)) := by
        unfold abort
        rw [hc]
        simp only [hst, hfire]
      rw [ha]
      refine ⟨rfl, rfl, ?_, fun hn => (by cases hn), ?_⟩
      · intro j hj
        rw [getElem?_setStatus, if_neg hj, getElem?_setStatus, if_neg hj,
          getElem?_clearHandler, if_neg hj]
      · intro y hy
        cases hy
        refine ⟨XhrStatus.aborted, ?_, by decide, fun _ => rfl⟩
        rw [getElem?_setStatus, getElem?_setStatus, hc]
        simp
    · have ha : abort r (clearHandler r s) =
          setStatus XhrStatus.aborted r (clearHandler r s) := by
        unfold abort
        rw [hc]
        simp only [hst]
      rw [ha]
      refine ⟨rfl, rfl, ?_, fun hn => (by cases hn), ?_⟩
      · intro j hj
        rw [getElem?_setStatus, if_neg hj, getElem?_clearHandler, if_neg hj]
      · intro y hy
        cases hy
        refine ⟨XhrStatus.aborted, ?_, by decide, fun _ => rfl⟩
        rw [getElem?_setStatus, hc]
        simp
    · have ha : abort r (clearHandler r s) = clearHandler r s := by
        unfold abort
        rw [hc]
        simp only [hst]
      rw [ha]
      refine ⟨rfl, rfl, ?_, fun hn => (by cases hn), ?_⟩
      · intro j hj
        rw [getElem?_clearHandler, if_neg hj]
      · intro y hy
        cases hy
        refine ⟨XhrStatus.aborting, ?_, by decide, fun hc' => (by rw [hst] at hc'; cases hc')⟩
        rw [hc, hst]
    · have ha : abort r (clearHandler r s) = clearHandler r s := by
        unfold abort
        rw [hc]
        simp only [hst]
      rw [ha]
      refine ⟨rfl, rfl, ?_, fun hn => (by cases hn), ?_⟩
      · intro j hj
        rw [getElem?_clearHandler, if_neg hj]
      · intro y hy
        cases hy
        refine ⟨XhrStatus.aborted, ?_, by decide, fun _ => rfl⟩
        rw [hc, hst]

theorem inFlightTracked_of_none {s : TipState} (h : NoneInFlight s.xhrs) :
    InFlightTracked s :=
  fun i x hx hst => absurd hst (h i x hx)

/-- After `onreadystatechange` has been cleared and `abort()` called on the tracked
request, nothing is in flight. -/
theorem noneInFlight_abort_clearHandler {s : TipState} {r : Nat}
    (h : InFlightTracked s) (hr : s.req = some r) :
    NoneInFlight (abort r (clearHandler r s)).xhrs := by
  obtain ⟨_, _, hne, hnone, hsome⟩ := abort_clearHandler_spec r s
  intro j y hy
  by_cases hj : j = r
  · subst hj
    rcases hs : s.xhrs[j]? with _ | x
    · rw [hnone hs] at hy
      cases hy
    · obtain ⟨st, hget, hst, _⟩ := hsome x hs
      rw [hget] at hy
      cases hy
      exact hst
  · rw [hne j hj] at hy
    intro hc
    have := h j y hy hc
    rw [hr] at this
    exact hj (Option.some.inj this).symm

theorem abortedCleared_abort_clearHandler {s : TipState} (r : Nat)
    (h : AbortedCleared s) : AbortedCleared (abort r (clearHandler r s)) := by
  obtain ⟨_, _, hne, hnone, hsome⟩ := abort_clearHandler_spec r s
  intro j y hy hst
  by_cases hj : j = r
  · subst hj
    rcases hs : s.xhrs[j]? with _ | x
    · rw [hnone hs] at hy
      cases hy
    · obtain ⟨st, hget, _, _⟩ := hsome x hs
      rw [hget] at hy
      cases hy
      rfl
  · rw [hne j hj] at hy
    exact h j y hy hst

theorem noneInFlight_append_tracked (s1 : TipState) (val lastVal : Option JSStr)
    (respRecd : Bool) (h : NoneInFlight s1.xhrs) :
    InFlightTracked
      { xhrs := s1.xhrs ++ [{ handlerLive := true, val := val, status := XhrStatus.inFlight }],
        req := some s1.xhrs.length, lastVal := lastVal, respRecd := respRecd } := by
  intro j y hy hst
  rcases Nat.lt_trichotomy j s1.xhrs.length with hlt | heq | hgt
  · simp only [List.getElem?_append_left hlt] at hy
    exact absurd hst (h j y hy)
  · rw [heq]
  · simp only [List.getElem?_eq_none (show (s1.xhrs ++ [_]).length ≤ j by simp; omega)] at hy
    cases hy

theorem abortedCleared_append (s1 : TipState) (val lastVal : Option JSStr) (req : Option Nat)
    (respRecd : Bool) (h : AbortedCleared s1) :
    AbortedCleared
      { xhrs := s1.xhrs ++ [{ handlerLive := true, val := val, status := XhrStatus.inFlight }],
        req := req, lastVal := lastVal, respRecd := respRecd } := by
  intro j y hy hst
  rcases Nat.lt_trichotomy j s1.xhrs.length with hlt | heq | hgt
  · simp only [List.getElem?_append_left hlt] at hy
    exact h j y hy hst
  · subst heq
    simp at hy
    subst hy
    cases hst
  · simp only [List.getElem?_eq_none (show (s1.xhrs ++ [_]).length ≤ j by simp; omega)] at hy
    cases hy

/-- The state `zkAjaxReqFn` is in before it calls `createAjaxReq`. -/
theorem zkAjaxReqFn_before_create {s : TipState} (val : Option JSStr)
    (h1 : InFlightTracked s) (h3 : AbortedCleared s)
    (hf : trackedInFlight s = false ∨ s.lastVal ≠ val) :
    NoneInFlight (match s.req with
      | some r => if s.lastVal ≠ val then abort r (clearHandler r s) else s
      | none => s).xhrs ∧
    AbortedCleared (match s.req with
      | some r => if s.lastVal ≠ val then abort r (clearHandler r s) else s
      | none => s) := by
  rcases hr : s.req with _ | r
  · refine ⟨?_, h3⟩
    intro j y hy hst
    have := h1 j y hy hst
    rw [hr] at this
    cases this
  · by_cases hv : s.lastVal ≠ val
    · simp only [if_pos hv]
      exact ⟨noneInFlight_abort_clearHandler h1 hr, abortedCleared_abort_clearHandler r h3⟩
    · simp only [if_neg hv]
      refine ⟨?_, h3⟩
      have ht : trackedInFlight s = false := by
        rcases hf with hf | hf
        · exact hf
        · exact absurd hf hv
      intro j y hy hst
      have hj := h1 j y hy hst
      rw [hr] at hj
      have hjr : r = j := Option.some.inj hj
      subst hjr
      simp [trackedInFlight, hr, hy, hst] at ht

theorem good_zkAjaxReqFn {s : TipState} (ok : Bool) (val : Option JSStr)
    (h1 : InFlightTracked s) (h3 : AbortedCleared s)
    (hf : trackedInFlight s = false ∨ s.lastVal ≠ val) :
    InFlightTracked (zkAjaxReqFn ok val s).1 ∧ AbortedCleared (zkAjaxReqFn ok val s).1 := by
  obtain ⟨hn, ha⟩ := zkAjaxReqFn_before_create val h1 h3 hf
  unfold zkAjaxReqFn
  generalize (match s.req with
      | some r => if s.lastVal ≠ val then abort r (clearHandler r s) else s
      | none => s) = s1 at hn ha
  cases ok
  · exact ⟨inFlightTracked_of_none hn, ha⟩
  · exact ⟨noneInFlight_append_tracked s1 val val s1.respRecd hn,
      abortedCleared_append s1 val val _ s1.respRecd ha⟩

theorem good_complete {s : TipState} (i : Nat) (reply : Reply)
    (h1 : InFlightTracked s) (h3 : AbortedCleared s) :
    InFlightTracked (complete i reply s) ∧ AbortedCleared (complete i reply s) := by
  unfold complete
  rcases hs : s.xhrs[i]? with _ | x
  · exact ⟨h1, h3⟩
  · by_cases hst : x.status = XhrStatus.inFlight
    · simp only [hst, if_true]
      have hreq : s.req = some i := h1 i x hs hst
      constructor
      · apply inFlightTracked_of_none
        intro j y' hy' hc
        obtain ⟨y, hy, he, _⟩ := fireHandler_getElem? _ _ j y' hy'
        rw [getElem?_setStatus] at hy
        split at hy
        · rcases hg : s.xhrs[j]? with _ | z
          · simp [hg] at hy
          · simp [hg] at hy
            subst hy
            rw [he] at hc
            cases hc
        · rename_i hji
          rw [he] at hc
          have := h1 j y hy hc
          rw [hreq] at this
          exact hji (Option.some.inj this).symm
      · intro j y' hy' hab
        obtain ⟨y, hy, he, hl⟩ := fireHandler_getElem? _ _ j y' hy'
        rw [getElem?_setStatus] at hy
        split at hy
        · rcases hg : s.xhrs[j]? with _ | z
          · simp [hg] at hy
          · simp [hg] at hy
            subst hy
            rw [he] at hab
            cases hab
        · rw [he] at hab
          exact hl (h3 j y hy hab)
    · simp only [hst, if_false]
      exact ⟨h1, h3⟩

theorem good_fireHandler {s : TipState} (i : Nat)
    (h1 : InFlightTracked s) (h3 : AbortedCleared s) :
    InFlightTracked (fireHandler i s) ∧ AbortedCleared (fireHandler i s) := by
  constructor
  · have hreq : (fireHandler i s).req = s.req ∨
        ∃ r : Nat, s.req = some r ∧ readyState4 s r = true := by
      unfold fireHandler
      split
      · split
        · split
          · rename_i r hr
            split
            · rename_i h4
              exact Or.inr ⟨r, hr, h4⟩
            · exact Or.inl rfl
          · exact Or.inl rfl
        · exact Or.inl rfl
      · exact Or.inl rfl
    rcases hreq with he | ⟨r, hr, h4⟩
    · intro j y' hy' hc
      obtain ⟨y, hy, hst, _⟩ := fireHandler_getElem? i s j y' hy'
      rw [he]
      exact h1 j y hy (by rw [← hst]; exact hc)
    · apply inFlightTracked_of_none
      intro j y' hy' hc
      obtain ⟨y, hy, hst, _⟩ := fireHandler_getElem? i s j y' hy'
      rw [hst] at hc
      have hj := h1 j y hy hc
      rw [hr] at hj
      have hrj : r = j := Option.some.inj hj
      subst hrj
      simp [readyState4, hy, hc] at h4
  · intro j y' hy' hab
    obtain ⟨y, hy, hst, hl⟩ := fireHandler_getElem? i s j y' hy'
    rw [hst] at hab
    exact hl (h3 j y hy hab)

theorem good_progress {s : TipState} (i : Nat)
    (h1 : InFlightTracked s) (h3 : AbortedCleared s) :
    InFlightTracked (progress i s) ∧ AbortedCleared (progress i s) := by
  unfold progress
  split
  · split
    · exact good_fireHandler i h1 h3
    · exact ⟨h1, h3⟩
  · exact ⟨h1, h3⟩

theorem good_zkOnHide {s : TipState} (reset : TipFlags → TipFlags)
    (h1 : InFlightTracked s) (h3 : AbortedCleared s) :
    InFlightTracked (zkOnHide reset s) ∧ AbortedCleared (zkOnHide reset s) := by
  unfold zkOnHide
  rcases hr : s.req with _ | r
  · exact ⟨h1, h3⟩
  · exact ⟨inFlightTracked_of_none (noneInFlight_abort_clearHandler h1 hr),
      abortedCleared_abort_clearHandler r h3⟩

theorem good_tipRun (reset : TipFlags → TipFlags) (evs : List TipEvent) :
    ∀ s : TipState, InFlightTracked s → AbortedCleared s → freshVals reset s evs = true →
      InFlightTracked (tipRun reset s evs) ∧ AbortedCleared (tipRun reset s evs) := by
  induction evs with
  | nil => intro s h1 h3 _; exact ⟨h1, h3⟩
  | cons e es ih =>
    intro s h1 h3 hf
    simp only [freshVals, Bool.and_eq_true] at hf
    have hstep : InFlightTracked (tipStep reset s e) ∧ AbortedCleared (tipStep reset s e) := by
      cases e with
      | ajaxReq ok val => exact good_zkAjaxReqFn ok val h1 h3 (by simpa using hf.1)
      | progress i => exact good_progress i h1 h3
      | completed i reply => exact good_complete i reply h1 h3
      | onHide => exact good_zkOnHide reset h1 h3
    exact ih _ hstep.1 hstep.2 hf.2

theorem filter_length_le_one {α : Type} (p : α → Bool) (xs : List α)
    (h : ∀ (i j : Nat) (x y : α), xs[i]? = some x → xs[j]? = some y →
      p x = true → p y = true → i = j) :
    (xs.filter p).length ≤ 1 := by
  induction xs with
  | nil => simp
  | cons a xs ih =>
    by_cases ha : p a = true
    · have hnone : xs.filter p = [] := by
        rw [List.filter_eq_nil_iff]
        intro y hy hpy
        obtain ⟨j, hj⟩ := List.getElem?_of_mem hy
        have := h 0 (j + 1) a y (by simp) (by simpa using hj) ha hpy
        omega
      simp [List.filter_cons, ha, hnone]
    · have := ih (fun i j x y hx hy hpx hpy => by
        have := h (i + 1) (j + 1) x y (by simpa using hx) (by simpa using hy) hpx hpy
        omega)
      simpa [List.filter_cons, ha] using this

theorem inFlightCount_le_one {s : TipState} (h : InFlightTracked s) :
    inFlightCount s ≤ 1 := by
  unfold inFlightCount
  apply filter_length_le_one
  intro i j x y hx hy hpx hpy
  have hi : s.req = some i := h i x hx (by simpa using hpx)
  have hj : s.req = some j := h j y hy (by simpa using hpy)
  rw [hi] at hj
  exact Option.some.inj hj

/-- A superseding call with another `val` clears the handler of the tracked request and
aborts it. -/
theorem zkAjaxReqFn_aborts_tracked (s : TipState) (ok : Bool) (val : Option JSStr)
    (r : Nat) (x : Xhr) (hr : s.req = some r) (hx : s.xhrs[r]? = some x)
    (hst : x.status = XhrStatus.inFlight) (hv : s.lastVal ≠ val) :
    (zkAjaxReqFn ok val s).1.xhrs[r]? =
      some { handlerLive := false, val := x.val, status := XhrStatus.aborted } := by
  obtain ⟨_, _, _, _, hsome⟩ := abort_clearHandler_spec r s
  obtain ⟨st, hget, _, hab⟩ := hsome x hx
  rw [hab hst] at hget
  have hlt : r < (abort r (clearHandler r s)).xhrs.length := by
    by_contra hc
    rw [List.getElem?_eq_none (by omega)] at hget
    cases hget
  unfold zkAjaxReqFn
  simp only [hr, hv, ne_eq, not_false_eq_true, if_true]
  cases ok
  · exact hget
  · simp only [if_true]
    rw [List.getElem?_append_left hlt]
    exact hget

/-- A call with `val` equal to `lastVal` touches no existing request. -/
theorem zkAjaxReqFn_same_val_keeps (s : TipState) (ok : Bool) (i : Nat) (x : Xhr)
    (hx : s.xhrs[i]? = some x) :
    (zkAjaxReqFn ok s.lastVal s).1.xhrs[i]? = some x := by
  have hlt : i < s.xhrs.length := by
    by_contra hc
    rw [List.getElem?_eq_none (by omega)] at hx
    cases hx
  have hs1 : (match s.req with
      | some r => if s.lastVal ≠ s.lastVal then abort r (clearHandler r s) else s
      | none => s) = s := by
    cases s.req <;> simp
  unfold zkAjaxReqFn
  simp only [hs1]
  cases ok
  · exact hx
  · simp only [if_true]
    rw [List.getElem?_append_left hlt]
    exact hx

/-- Evaluations of the lookup model on replies of each kind. A body that parses to `null`
leaves `zkTltip.req` set; a parsed body clears the handler and `zkTltip.req`; once a
request has been aborted its `readyState` is no longer 4, so the handler of another
request does not run `responseReady` on it. -/
theorem tipRun_replies :
    tipRun id tipInit [TipEvent.ajaxReq true (some "T15".toList),
        TipEvent.completed 0 Reply.nullBody] =
      { xhrs := [{ handlerLive := false, val := some "T15".toList,
                   status := XhrStatus.done Reply.nullBody }],
        req := some 0, lastVal := some "T15".toList, respRecd := true } ∧
    tipRun id tipInit [TipEvent.ajaxReq true (some "T15".toList),
        TipEvent.completed 0 Reply.data] =
      { xhrs := [{ handlerLive := false, val := some "T15".toList,
                   status := XhrStatus.done Reply.data }],
        req := none, lastVal := some "T15".toList, respRecd := true } ∧
    tipRun id tipInit [TipEvent.ajaxReq true (some "T15".toList),
        TipEvent.completed 0 Reply.unparseable] =
      { xhrs := [{ handlerLive := true, val := some "T15".toList,
                   status := XhrStatus.done Reply.unparseable }],
        req := some 0, lastVal := some "T15".toList, respRecd := false } ∧
    tipRun id tipInit hiddenThenReply =
      { xhrs := [{ handlerLive := true, val := some "T15".toList,
                   status := XhrStatus.done Reply.data },
                 { handlerLive := false, val := some "T15".toList,
                   status := XhrStatus.aborted }],
        req := some 1, lastVal := some "T15".toList, respRecd := false } := by
  decide

/-! ## Lemmas on the hover hit test -/

theorem hitTest_iff (x y : Int) (r : Rect) : hitTest x y r = true ↔ InRect x y r := by
  simp [hitTest, InRect, and_assoc]

theorem scanRects_some {x y : Int} {l : List VectEntry} {k i : Nat} {o : VectEntry}
    (h : scanRects x y l k = some (i, o)) :
    k ≤ i ∧ l[i - k]? = some o ∧ InRect x y o.rect ∧
      ∀ (j : Nat) (o' : VectEntry), j < i - k → l[j]? = some o' → ¬ InRect x y o'.rect := by
  induction l generalizing k with
  | nil => simp [scanRects] at h
  | cons a l ih =>
    unfold scanRects at h
    split at h
    · rename_i ha
      simp only [Option.some.injEq, Prod.mk.injEq] at h
      obtain ⟨rfl, rfl⟩ := h
      refine ⟨le_refl _, by simp, (hitTest_iff x y _).1 ha, ?_⟩
      intro j o' hj
      omega
    · rename_i ha
      obtain ⟨h1, h2, h3, h4⟩ := ih h
      have hik : i - k = (i - (k + 1)) + 1 := by omega
      refine ⟨by omega, by rw [hik]; simpa using h2, h3, ?_⟩
      intro j o' hj ho'
      cases j with
      | zero =>
        simp only [List.getElem?_cons_zero, Option.some.injEq] at ho'
        subst ho'
        intro hc
        exact ha ((hitTest_iff x y _).2 hc)
      | succ j => exact h4 j o' (by omega) (by simpa using ho')

theorem scanRects_none {x y : Int} {l : List VectEntry} {k : Nat}
    (h : scanRects x y l k = none) :
    ∀ (j : Nat) (o : VectEntry), l[j]? = some o → ¬ InRect x y o.rect := by
  induction l generalizing k with
  | nil => intro j o ho; simp at ho
  | cons a l ih =>
    unfold scanRects at h
    split at h
    · cases h
    · rename_i ha
      intro j o ho
      cases j with
      | zero =>
        simp only [List.getElem?_cons_zero, Option.some.injEq] at ho
        subst ho
        intro hc
        exact ha ((hitTest_iff x y _).2 hc)
      | succ j => exact ih h j o (by simpa using ho)

/-! ## Lemmas on the string helpers -/

theorem lastIndexOfFrom_not_mem (c : Char) (s : JSStr) (i : Nat) (found : Int)
    (h : c ∉ s) : lastIndexOfFrom c s i found = found := by
  induction s generalizing i found with
  | nil => rfl
  | cons d ds ih =>
    have hd : d ≠ c := fun e => h (by simp [e])
    have hds : c ∉ ds := fun e => h (by simp [e])
    simp [lastIndexOfFrom, hd, ih _ _ hds]

theorem lastIndexOfFrom_append (c : Char) (pre post : JSStr) (i : Nat) (found : Int)
    (h : c ∉ post) :
    lastIndexOfFrom c (pre ++ c :: post) i found = ((i + pre.length : Nat) : Int) := by
  induction pre generalizing i found with
  | nil => simp [lastIndexOfFrom, lastIndexOfFrom_not_mem c post _ _ h]
  | cons d ds ih =>
    show lastIndexOfFrom c (ds ++ c :: post) (i + 1) _ = _
    rw [ih]
    simp only [List.length_cons]
    congr 1
    omega

theorem lastIndexOf_append (c : Char) (pre post : JSStr) (h : c ∉ post) :
    lastIndexOf c (pre ++ c :: post) = (pre.length : Int) := by
  simp [lastIndexOf, lastIndexOfFrom_append c pre post 0 (-1) h]

theorem lastIndexOf_not_mem (c : Char) (s : JSStr) (h : c ∉ s) : lastIndexOf c s = -1 :=
  lastIndexOfFrom_not_mem c s 0 (-1) h

theorem exists_last_occurrence (c : Char) (s : JSStr) (h : c ∈ s) :
    ∃ pre post : JSStr, s = pre ++ c :: post ∧ c ∉ post := by
  induction s with
  | nil => simp at h
  | cons d ds ih =>
    by_cases hds : c ∈ ds
    · obtain ⟨pre, post, he, hp⟩ := ih hds
      exact ⟨d :: pre, post, by simp [he], hp⟩
    · have hd : c = d := by
        rcases List.mem_cons.1 h with e | e
        · exact e
        · exact absurd e hds
      exact ⟨[], ds, by simp [hd], hds⟩

theorem substring_zero (s : JSStr) (n : Nat) (h : n ≤ s.length) :
    substring s 0 (n : Int) = s.take n := by
  simp [substring, clampIdx, h]

theorem substring_to_end (s : JSStr) (n : Nat) (h : n ≤ s.length) :
    substring s (n : Int) (s.length : Int) = s.drop n := by
  simp [substring, clampIdx, h]

theorem lk2SgV_append (pre post : JSStr) (h : '(' ∉ post) :
    lk2SgV (pre ++ '(' :: post) = pre := by
  unfold lk2SgV
  simp only [lastIndexOf_append '(' pre post h]
  rw [if_pos (by omega), substring_zero _ _ (by simp)]
  simp

theorem lk2SgV_not_mem (s : JSStr) (h : '(' ∉ s) : lk2SgV s = s := by
  unfold lk2SgV
  simp [lastIndexOf_not_mem '(' s h]

theorem lastFragment_append (pre post : JSStr) (h : ',' ∉ post) :
    lastFragment (pre ++ ',' :: post) = post := by
  unfold lastFragment
  rw [List.reverse_append, List.reverse_cons, List.append_assoc]
  rw [List.takeWhile_append_of_pos]
  · simp [List.takeWhile]
  · intro c hc
    have : c ≠ ',' := fun e => h (by rw [← e]; exact List.mem_reverse.1 hc)
    simpa using this

theorem lastFragment_not_mem (v : JSStr) (h : ',' ∉ v) : lastFragment v = v := by
  unfold lastFragment
  rw [List.takeWhile_eq_self_iff.2]
  · simp
  · intro c hc
    have : c ≠ ',' := fun e => h (by rw [← e]; exact List.mem_reverse.1 hc)
    simpa using this

theorem star_not_mem_starToPercent (s : JSStr) : '*' ∉ starToPercent s := by
  unfold starToPercent
  intro h
  obtain ⟨c, _, hc⟩ := List.mem_map.1 h
  by_cases e : c = '*'
  · simp [e] at hc
  · simp [e] at hc

theorem percent_not_mem_removePercent (s : JSStr) : '%' ∉ removePercent s := by
  unfold removePercent
  intro h
  have := (List.mem_filter.1 h).2
  simp at this

theorem getSuggestions_eq (htmlscEc encodeURIComponent : JSStr → JSStr) (v : JSStr) :
    getSuggestions htmlscEc encodeURIComponent v =
      if removePercent (lastFragment v) ≠ [] ∧ removePercent (lastFragment v) ≠ ['*'] then
        some ("php/stlajax.php?val=".toList ++
          encodeURIComponent (htmlscEc (starToPercent (removePercent (lastFragment v)))))
      else none := by
  have hval : (if lastIndexOf ',' v ≠ -1 then substring v (lastIndexOf ',' v + 1) v.length
      else v) = lastFragment v := by
    by_cases hc : ',' ∈ v
    · obtain ⟨pre, post, he, hp⟩ := exists_last_occurrence ',' v hc
      subst he
      rw [lastIndexOf_append ',' pre post hp, lastFragment_append pre post hp]
      rw [if_pos (by omega)]
      have h1 : ((pre.length : Int) + 1) = ((pre.length + 1 : Nat) : Int) := by simp
      rw [h1, substring_to_end _ _ (by simp)]
      simp
    · rw [lastIndexOf_not_mem ',' v hc, lastFragment_not_mem v hc]
      simp
  unfold getSuggestions
  simp only [hval]
  by_cases hv : v = []
  · subst hv
    simp [lastFragment, removePercent]
  · rw [if_pos hv]
    by_cases hf : lastFragment v = []
    · simp [hf, removePercent]
    · rw [if_pos hf]

/-! ## Lemmas on the graph URL -/

theorem joinComma_eq_intercalate (ni : List (Option JSStr)) :
    joinComma ni = [','].intercalate (ni.map elemStr) := by
  induction ni with
  | nil => rfl
  | cons a rest ih =>
    cases rest with
    | nil => simp [joinComma, List.intercalate]
    | cons b rest =>
      simp only [joinComma, ih]
      simp [List.intercalate, List.intersperse]

theorem formUrl_el_eq (el : JSStr) (h : el ≠ []) :
    (if charAt el ((el.length : Int) - 1) = [','] then
        substring el 0 ((el.length : Int) - 1) else el) = dropTrailingComma el := by
  have hlen : 0 < el.length := List.length_pos.2 h
  have hnat : ((el.length : Int) - 1).toNat = el.length - 1 := by omega
  have hch : charAt el ((el.length : Int) - 1) = [','] ↔ el.getLast? = some ',' := by
    unfold charAt
    rw [if_neg (by omega), hnat, List.getLast?_eq_getElem?]
    rcases hg : el[el.length - 1]? with _ | c
    · simp
    · simp
  have hsub : substring el 0 ((el.length : Int) - 1) = el.dropLast := by
    have : ((el.length : Int) - 1) = ((el.length - 1 : Nat) : Int) := by omega
    rw [this, substring_zero _ _ (by omega), List.dropLast_eq_take]
  unfold dropTrailingComma
  by_cases hc : el.getLast? = some ','
  · rw [if_pos (hch.2 hc), if_pos hc, hsub]
  · rw [if_neg (fun e => hc (hch.1 e)), if_neg hc]

/-! ## Lemmas on the row-id loop -/

theorem findRowId_some {sname : NameRec → JSStr} {t : JSStr} {l : List (Option NameRec)}
    {k j : Nat} {r : NameRec} (h : findRowId sname t l k = some (j, r)) :
    k ≤ j ∧ l[j - k]? = some (some r) ∧ sname r = t ∧
      ∀ (j' : Nat) (r' : NameRec), j' < j - k → l[j']? = some (some r') → sname r' ≠ t := by
  induction l generalizing k with
  | nil => simp [findRowId] at h
  | cons a l ih =>
    have hstep : findRowId sname t l (k + 1) = some (j, r) →
        (∀ r', a = some r' → sname r' ≠ t) →
        k ≤ j ∧ (a :: l)[j - k]? = some (some r) ∧ sname r = t ∧
          ∀ (j' : Nat) (r' : NameRec), j' < j - k → (a :: l)[j']? = some (some r') →
            sname r' ≠ t := by
      intro h' ha
      obtain ⟨h1, h2, h3, h4⟩ := ih h'
      have hjk : j - k = (j - (k + 1)) + 1 := by omega
      refine ⟨by omega, by rw [hjk]; simpa using h2, h3, ?_⟩
      intro j' r' hj' hr'
      cases j' with
      | zero =>
        simp only [List.getElem?_cons_zero, Option.some.injEq] at hr'
        exact ha r' hr'
      | succ j' => exact h4 j' r' (by omega) (by simpa using hr')
    cases a with
    | none =>
      simp only [findRowId] at h
      exact hstep h (fun r' hr' => by cases hr')
    | some r0 =>
      simp only [findRowId] at h
      split at h
      · rename_i heq
        simp only [Option.some.injEq, Prod.mk.injEq] at h
        obtain ⟨rfl, rfl⟩ := h
        refine ⟨le_refl _, by simp, heq, ?_⟩
        intro j' r' hj'
        omega
      · rename_i hne
        exact hstep h (fun r' hr' => by cases hr'; exact hne)

theorem findRowId_none {sname : NameRec → JSStr} {t : JSStr} {l : List (Option NameRec)}
    {k : Nat} (h : findRowId sname t l k = none) :
    ∀ (j : Nat) (r : NameRec), l[j]? = some (some r) → sname r ≠ t := by
  induction l generalizing k with
  | nil => intro j r hr; simp at hr
  | cons a l ih =>
    cases a with
    | none =>
      simp only [findRowId] at h
      intro j r hr
      cases j with
      | zero => simp at hr
      | succ j => exact ih h j r (by simpa using hr)
    | some r0 =>
      simp only [findRowId] at h
      split at h
      · cases h
      · rename_i hne
        intro j r hr
        cases j with
        | zero =>
          simp only [List.getElem?_cons_zero, Option.some.injEq] at hr
          cases hr
          exact hne
        | succ j => exact ih h j r (by simpa using hr)

theorem consumedBefore_append {m : List (Option Nat)} {x : Option Nat} {i j : Nat}
    (hi : i ≤ m.length) : ConsumedBefore (m ++ [x]) i j ↔ ConsumedBefore m i j := by
  unfold ConsumedBefore
  constructor
  · rintro ⟨k, hk, hm⟩
    exact ⟨k, hk, by rwa [List.getElem?_append_left (by omega)] at hm⟩
  · rintro ⟨k, hk, hm⟩
    exact ⟨k, hk, by rwa [List.getElem?_append_left (by omega)]⟩

theorem consumedBefore_succ {m : List (Option Nat)} {x : Option Nat} {j : Nat} :
    ConsumedBefore (m ++ [x]) (m.length + 1) j ↔ ConsumedBefore m m.length j ∨ x = some j := by
  unfold ConsumedBefore
  constructor
  · rintro ⟨k, hk, hm⟩
    rcases Nat.lt_or_ge k m.length with hlt | hge
    · left
      exact ⟨k, hlt, by rwa [List.getElem?_append_left hlt] at hm⟩
    · right
      have hk' : k = m.length := by omega
      subst hk'
      simpa using hm
  · rintro (⟨k, hk, hm⟩ | hx)
    · exact ⟨k, by omega, by rwa [List.getElem?_append_left hk]⟩
    · exact ⟨m.length, by omega, by simp [hx]⟩

theorem candidate_append {sname : NameRec → JSStr} {nrIds : List (Option NameRec)}
    {m : List (Option Nat)} {x : Option Nat} {i : Nat} {t : JSStr} {j : Nat} {r : NameRec}
    (hi : i ≤ m.length) :
    Candidate sname nrIds (m ++ [x]) i t j r ↔ Candidate sname nrIds m i t j r := by
  unfold Candidate
  rw [consumedBefore_append hi]

theorem rowIdOf_append {sname : NameRec → JSStr} {nrIds : List (Option NameRec)}
    {m : List (Option Nat)} {x : Option Nat} {ni : List (Option JSStr)} {y : Option JSStr}
    {i : Nat} {t : JSStr} (hm : i < m.length) (hn : i < ni.length)
    (h : RowIdOf sname nrIds m ni i t) : RowIdOf sname nrIds (m ++ [x]) (ni ++ [y]) i t := by
  unfold RowIdOf at h ⊢
  rw [List.getElem?_append_left hm, List.getElem?_append_left hn]
  simp only [candidate_append (Nat.le_of_lt hm)]
  exact h

theorem rowIdInv_step {toLowerCase : JSStr → JSStr} {sname : NameRec → JSStr}
    {nrIds : List (Option NameRec)} {names : List JSStr} {m : List (Option Nat)}
    {v : RowIdVars} (snm : JSStr) (h : RowIdInv toLowerCase sname nrIds names m v) :
    ∃ (x : Option Nat) (v' : RowIdVars),
      RowIdInv toLowerCase sname nrIds (names ++ [snm]) (m ++ [x]) v' ∧
      ∀ rest : List JSStr, rowIdLoop toLowerCase sname (snm :: rest) v =
        rowIdLoop toLowerCase sname rest v' := by
  obtain ⟨hml, hnl, hnr, hper, hb⟩ := h
  have hold : ∀ (x : Option Nat) (y : Option JSStr) (i : Nat) (s : JSStr),
      i < names.length → (names ++ [snm])[i]? = some s →
      RowIdOf sname nrIds (m ++ [x]) (v.ni ++ [y]) i (toLowerCase s) := by
    intro x y i s hi hs
    rw [List.getElem?_append_left hi] at hs
    exact rowIdOf_append (by omega) (by omega) (hper i s hs)
  have hlast : ∀ (i : Nat) (s : JSStr), ¬ i < names.length →
      (names ++ [snm])[i]? = some s → i = names.length ∧ s = snm := by
    intro i s hi hs
    rcases Nat.lt_or_ge names.length i with hgt | hle
    · rw [List.getElem?_eq_none (by simp; omega)] at hs
      cases hs
    · have : i = names.length := by omega
      subst this
      simp at hs
      exact ⟨rfl, hs.symm⟩
  rcases hf : findRowId sname (toLowerCase snm) v.nrids 0 with _ | ⟨j, r⟩
  · have hnone := findRowId_none hf
    refine ⟨none, { v with ni := v.ni ++ [some []] }, ⟨?_, ?_, ?_, ?_, ?_⟩, ?_⟩
    · simp [hml]
    · simp [hnl]
    · intro j r
      rw [hnr j r, List.length_append, List.length_singleton, ← hml, consumedBefore_succ]
      simp
    · intro i s hs
      by_cases hi : i < names.length
      · exact hold none (some []) i s hi hs
      · obtain ⟨rfl, rfl⟩ := hlast i s hi hs
        unfold RowIdOf
        rw [← hml, List.getElem?_concat_length]
        refine ⟨fun j hj => (by cases hj), fun _ => ⟨?_, ?_⟩⟩
        · rintro j r ⟨h1, h2, h3⟩
          rw [consumedBefore_append (le_refl _)] at h2
          exact hnone j r ((hnr j r).2 ⟨h1, by rwa [← hml]⟩) h3
        · rw [hml, ← hnl, List.getElem?_concat_length]
    · rw [hb]
      constructor
      · rintro ⟨i, j, hij⟩
        have hi : i < m.length := by
          by_contra hc
          rw [List.getElem?_eq_none (by omega)] at hij
          cases hij
        exact ⟨i, j, by rwa [List.getElem?_append_left hi]⟩
      · rintro ⟨i, j, hij⟩
        have hi : i < m.length := by
          by_contra hc
          rcases Nat.lt_or_ge m.length i with hgt | hle
          · rw [List.getElem?_eq_none (by simp; omega)] at hij
            cases hij
          · have : i = m.length := by omega
            subst this
            simp at hij
        exact ⟨i, j, by rwa [List.getElem?_append_left hi] at hij⟩
    · intro rest
      simp [rowIdLoop, hf]
  · obtain ⟨_, h2, h3, h4⟩ := findRowId_some hf
    simp only [Nat.sub_zero] at h2 h4
    have horig := (hnr j r).1 h2
    refine ⟨some j, { nrids := v.nrids.set j none, ni := v.ni ++ [r.nid], bHasId := true },
      ⟨?_, ?_, ?_, ?_, ?_⟩, ?_⟩
    · simp [hml]
    · simp [hnl]
    · intro j' r'
      rw [List.length_append, List.length_singleton, ← hml, consumedBefore_succ]
      simp only [List.getElem?_set]
      by_cases hjj : j = j'
      · subst hjj
        simp
      · rw [if_neg hjj, hnr j' r', hml]
        simp [hjj]
    · intro i s hs
      by_cases hi : i < names.length
      · exact hold (some j) r.nid i s hi hs
      · obtain ⟨rfl, rfl⟩ := hlast i s hi hs
        unfold RowIdOf
        rw [← hml, List.getElem?_concat_length]
        refine ⟨fun j0 hj0 => ?_, fun hc => by cases hc⟩
        simp only [Option.some.injEq] at hj0
        subst hj0
        refine ⟨r, ⟨horig.1, ?_, h3⟩, ?_, ?_⟩
        · rw [consumedBefore_append (le_refl _), hml]
          exact horig.2
        · rintro j' r' hj' ⟨c1, c2, c3⟩
          rw [consumedBefore_append (le_refl _)] at c2
          exact h4 j' r' hj' ((hnr j' r').2 ⟨c1, by rwa [← hml]⟩) c3
        · rw [hml, ← hnl, List.getElem?_concat_length]
    · simp only [true_iff]
      exact ⟨m.length, j, by simp⟩
    · intro rest
      simp [rowIdLoop, hf]

theorem rowIdInv_loop {toLowerCase : JSStr → JSStr} {sname : NameRec → JSStr}
    {nrIds : List (Option NameRec)} (rest : List JSStr) :
    ∀ (names : List JSStr) (m : List (Option Nat)) (v : RowIdVars),
      RowIdInv toLowerCase sname nrIds names m v →
      ∃ m' : List (Option Nat),
        RowIdInv toLowerCase sname nrIds (names ++ rest) m'
          (rowIdLoop toLowerCase sname rest v) := by
  induction rest with
  | nil =>
    intro names m v h
    exact ⟨m, by simpa [rowIdLoop] using h⟩
  | cons snm rest ih =>
    intro names m v h
    obtain ⟨x, v', hinv, hrun⟩ := rowIdInv_step snm h
    obtain ⟨m', hm'⟩ := ih (names ++ [snm]) (m ++ [x]) v' hinv
    refine ⟨m', ?_⟩
    rw [hrun rest]
    simpa using hm'

theorem rowIdInv_init (toLowerCase : JSStr → JSStr) (sname : NameRec → JSStr)
    (nrIds : List (Option NameRec)) :
    RowIdInv toLowerCase sname nrIds [] [] { nrids := nrIds, ni := [], bHasId := false } := by
  refine ⟨rfl, rfl, ?_, ?_, ?_⟩
  · intro j r
    simp [ConsumedBefore]
  · intro i s hs
    simp at hs
  · simp

/-! ## Lemmas on the recorded row ids -/

theorem noDupPos_nil : NoDupPos [] := by
  intro i j r1 r2 h1
  simp at h1

theorem noDupPos_of_sub {l l' : List (Option NameRec)}
    (hsub : ∀ (j : Nat) (r' : NameRec), l'[j]? = some (some r') →
      ∃ r : NameRec, l[j]? = some (some r) ∧ r.namePos = r'.namePos)
    (h : NoDupPos l) : NoDupPos l' := by
  intro i j r1 r2 h1 h2 hp
  obtain ⟨s1, hs1, e1⟩ := hsub i r1 h1
  obtain ⟨s2, hs2, e2⟩ := hsub j r2 h2
  exact h i j s1 s2 hs1 hs2 (by rw [e1, e2, hp])

theorem noDupPos_append {l : List (Option NameRec)} {entry : NameRec} (h : NoDupPos l)
    (hfresh : ∀ (j : Nat) (r : NameRec), l[j]? = some (some r) →
      r.namePos ≠ entry.namePos) :
    NoDupPos (l ++ [some entry]) := by
  have hget : ∀ (i : Nat) (r : NameRec), (l ++ [some entry])[i]? = some (some r) →
      (i < l.length ∧ l[i]? = some (some r)) ∨ (i = l.length ∧ r = entry) := by
    intro i r hr
    rcases Nat.lt_trichotomy i l.length with hlt | heq | hgt
    · left
      exact ⟨hlt, by rwa [List.getElem?_append_left hlt] at hr⟩
    · right
      subst heq
      simp at hr
      exact ⟨rfl, hr.symm⟩
    · rw [List.getElem?_eq_none (by simp; omega)] at hr
      cases hr
  intro i j r1 r2 h1 h2 hp
  rcases hget i r1 h1 with ⟨_, g1⟩ | ⟨e1, f1⟩ <;> rcases hget j r2 h2 with ⟨_, g2⟩ | ⟨e2, f2⟩
  · exact h i j r1 r2 g1 g2 hp
  · subst f2
    exact absurd hp (hfresh i r1 g1)
  · subst f1
    exact absurd hp.symm (hfresh j r2 g2)
  · rw [e1, e2]

theorem noDupPos_initRIdsLoop (nis : List JSStr) (nms : List JSStr) :
    ∀ (i : Nat) (nrIds : List (Option NameRec)), NoDupPos nrIds →
      (∀ (j : Nat) (r : NameRec), nrIds[j]? = some (some r) → r.namePos < i) →
      NoDupPos (initRIdsLoop nis nms i nrIds) := by
  induction nms with
  | nil => intro i nrIds h _; exact h
  | cons nm rest ih =>
    intro i nrIds h hlt
    unfold initRIdsLoop
    apply ih
    · apply noDupPos_append h
      intro j r hr
      exact Nat.ne_of_lt (hlt j r hr)
    · intro j r hr
      rcases Nat.lt_trichotomy j nrIds.length with hj | hj | hj
      · rw [List.getElem?_append_left hj] at hr
        exact Nat.lt_succ_of_lt (hlt j r hr)
      · subst hj
        simp at hr
        rw [← hr]
        exact Nat.lt_succ_self i
      · rw [List.getElem?_eq_none (by simp; omega)] at hr
        cases hr

theorem noDupPos_initRIds (nmCtl : JSStr) (ni : Option JSStr) :
    NoDupPos (initRIds nmCtl ni []) := by
  unfold initRIds
  split
  · split
    · exact noDupPos_initRIdsLoop _ _ 0 [] noDupPos_nil (fun j r hr => by simp at hr)
    · exact noDupPos_nil
  · exact noDupPos_nil

/-- What the loop of `setSelected` does to one entry. -/
theorem replaceLoop_getElem? (n : Nat) (entry : NameRec) (l : List (Option NameRec)) :
    ∀ (b : Bool) (i : Nat),
      (replaceLoop n entry l b).1[i]? =
        (l[i]?).map (fun o => match o with
          | some r => if r.namePos = n then some entry else some r
          | none => none) := by
  induction l with
  | nil => intro b i; simp [replaceLoop]
  | cons o rest ih =>
    intro b i
    cases o with
    | none =>
      cases i with
      | zero => simp [replaceLoop]
      | succ i => simp [replaceLoop, ih]
    | some r =>
      by_cases hr : r.namePos = n
      · cases i with
        | zero => simp [replaceLoop, hr]
        | succ i => simp [replaceLoop, hr, ih]
      · cases i with
        | zero => simp [replaceLoop, hr]
        | succ i => simp [replaceLoop, hr, ih]

theorem replaceLoop_length (n : Nat) (entry : NameRec) (l : List (Option NameRec)) :
    ∀ b : Bool, (replaceLoop n entry l b).1.length = l.length := by
  induction l with
  | nil => intro b; simp [replaceLoop]
  | cons o rest ih =>
    intro b
    cases o with
    | none => simp [replaceLoop, ih]
    | some r => by_cases hr : r.namePos = n <;> simp [replaceLoop, hr, ih]

theorem replaceLoop_posExists (n : Nat) (entry : NameRec) (l : List (Option NameRec)) :
    ∀ b : Bool, (replaceLoop n entry l b).2 = true ↔
      b = true ∨ ∃ (i : Nat) (r : NameRec), l[i]? = some (some r) ∧ r.namePos = n := by
  induction l with
  | nil => intro b; simp [replaceLoop]
  | cons o rest ih =>
    intro b
    have hshift : (∃ (i : Nat) (r : NameRec), (o :: rest)[i]? = some (some r) ∧ r.namePos = n) ↔
        (∃ r : NameRec, o = some r ∧ r.namePos = n) ∨
          ∃ (i : Nat) (r : NameRec), rest[i]? = some (some r) ∧ r.namePos = n := by
      constructor
      · rintro ⟨i, r, hi, hr⟩
        cases i with
        | zero =>
          left
          simp at hi
          exact ⟨r, hi, hr⟩
        | succ i =>
          right
          exact ⟨i, r, by simpa using hi, hr⟩
      · rintro (⟨r, ho, hr⟩ | ⟨i, r, hi, hr⟩)
        · exact ⟨0, r, by simp [ho], hr⟩
        · exact ⟨i + 1, r, by simpa using hi, hr⟩
    rw [hshift]
    cases o with
    | none =>
      simp only [replaceLoop, ih]
      simp
    | some r =>
      by_cases hr : r.namePos = n
      · simp only [replaceLoop, hr, if_true, ih]
        simp [hr]
      · simp only [replaceLoop, hr, if_false, ih]
        simp [hr]

theorem noDupPos_setSelected (sel : Option SgSelection) (s : GraphCtlState)
    (h : NoDupPos s.nrIds) : NoDupPos (setSelected sel s).nrIds := by
  cases sel with
  | none => exact h
  | some x =>
    simp only [setSelected]
    generalize hn : (splitComma (selectedValue (lk2SgV x.linkText) s.nmValue)).length - 1 = n
    have hsub : ∀ (b : Bool) (j : Nat) (r' : NameRec),
        (replaceLoop n { name := x.name, nid := x.nid, namePos := n } s.nrIds b).1[j]? =
          some (some r') →
        ∃ r : NameRec, s.nrIds[j]? = some (some r) ∧ r.namePos = r'.namePos := by
      intro b j r' hr'
      rw [replaceLoop_getElem?] at hr'
      rcases ho : s.nrIds[j]? with _ | o
      · simp [ho] at hr'
      · cases o with
        | none => simp [ho] at hr'
        | some r =>
          refine ⟨r, rfl, ?_⟩
          by_cases hp : r.namePos = n
          · simp [ho, hp] at hr'
            rw [← hr', hp]
          · simp [ho, hp] at hr'
            rw [hr']
    have hkeep := noDupPos_of_sub (hsub false) h
    split
    · rename_i hfalse
      apply noDupPos_append hkeep
      intro j r' hr' hp
      obtain ⟨r, hr, he⟩ := hsub false j r' hr'
      have hex : (replaceLoop n { name := x.name, nid := x.nid, namePos := n }
          s.nrIds false).2 = true :=
        (replaceLoop_posExists n _ s.nrIds false).2 (Or.inr ⟨j, r, hr, by rw [he, hp]⟩)
      rw [hfalse] at hex
      cases hex
    · exact hkeep

theorem rowIds_nrids_sub (toLowerCase htmlsceDc : JSStr → JSStr) (snms : List JSStr)
    (nrIds : List (Option NameRec)) (j : Nat) (r : NameRec)
    (h : (rowIds toLowerCase htmlsceDc snms nrIds).nrids[j]? = some (some r)) :
    nrIds[j]? = some (some r) := by
  unfold rowIds at h
  split at h
  · obtain ⟨m, hm⟩ := @rowIdInv_loop toLowerCase
      (fun r => htmlsceDc (lk2SgV (toLowerCase r.name))) nrIds snms [] []
      { nrids := nrIds, ni := [], bHasId := false } (rowIdInv_init _ _ _)
    exact ((hm.2.2.1 j r).1 h).1
  · exact h

theorem noDupPos_onSubmit (toLowerCase htmlsceDc encodeURIComponent : JSStr → JSStr)
    (box : JSStr → Option Checkbox) (c : Controls) (s : GraphCtlState)
    (h : NoDupPos s.nrIds) :
    NoDupPos (onSubmit toLowerCase htmlsceDc encodeURIComponent box c s).2.nrIds := by
  unfold onSubmit
  by_cases hc : s.nmValue = [] ∨ s.nmValue.length = 0 ∨ DFPX.isPrefixOf s.nmValue = true
  · simp only [hc, ↓reduceIte]
    cases he : s.errdlg with
    | undefined =>
      simp only [he]
      exact h
    | null => exact h
    | dlg d =>
      simp only [he]
      exact h
  · simp only [hc, ↓reduceIte]
    apply noDupPos_of_sub _ h
    intro j r' hr'
    exact ⟨r', rowIds_nrids_sub _ _ _ _ j r' hr', rfl⟩

theorem noDupPos_ctlRun (toLowerCase htmlsceDc encodeURIComponent : JSStr → JSStr)
    (clrArray : List (Option NameRec) → List (Option NameRec))
    (hclr : ∀ l : List (Option NameRec), clrArray l = []) (evs : List CtlEvent) :
    ∀ s : GraphCtlState, NoDupPos s.nrIds →
      NoDupPos (ctlRun toLowerCase htmlsceDc encodeURIComponent clrArray s evs).nrIds := by
  induction evs with
  | nil => intro s h; exact h
  | cons e es ih =>
    intro s h
    apply ih
    cases e with
    | input v => exact h
    | setSelected sel => exact noDupPos_setSelected sel s h
    | srchBl =>
      simp only [ctlStep, srchBl]
      split
      · simp only [hclr]
        exact noDupPos_nil
      · exact h
    | onSubmit box c => exact noDupPos_onSubmit _ _ _ box c s h

theorem setSelected_replaces (x : SgSelection) (s : GraphCtlState) (i : Nat) (r : NameRec)
    (hi : s.nrIds[i]? = some (some r)) (hp : r.namePos = selectedPos x s) :
    (setSelected (some x) s).nrIds.length = s.nrIds.length ∧
    (setSelected (some x) s).nrIds[i]? =
      some (some { name := x.name, nid := x.nid, namePos := r.namePos }) := by
  simp only [setSelected]
  unfold selectedPos at hp
  generalize (splitComma (selectedValue (lk2SgV x.linkText) s.nmValue)).length - 1 = n at hp
  have hex : (replaceLoop n { name := x.name, nid := x.nid, namePos := n }
      s.nrIds false).2 = true :=
    (replaceLoop_posExists n _ s.nrIds false).2 (Or.inr ⟨i, r, hi, hp⟩)
  rw [if_neg (by rw [hex]; simp)]
  refine ⟨replaceLoop_length _ _ _ _, ?_⟩
  rw [replaceLoop_getElem?, hi]
  simp [hp]

/-! ## Lemmas on `onSubmit` -/

/-- The name list `onSubmit` goes on with is the input with one trailing comma removed. -/
theorem onSubmit_name_list (v : JSStr) (hv : v ≠ []) :
    (if lastIndexOf ',' v = (v.length : Int) - 1 then substring v 0 (lastIndexOf ',' v)
      else v) = dropTrailingComma v := by
  have hlen : 0 < v.length := List.length_pos.2 hv
  unfold dropTrailingComma
  by_cases hc : ',' ∈ v
  · obtain ⟨pre, post, he, hp⟩ := exists_last_occurrence ',' v hc
    subst he
    rw [lastIndexOf_append ',' pre post hp]
    cases post with
    | nil =>
      have h1 : ((pre ++ [',']).length : Int) - 1 = (pre.length : Int) := by
        simp
      rw [if_pos h1.symm, substring_zero _ _ (by simp), List.getLast?_concat]
      simp
    | cons p ps =>
      have h1 : ¬ ((pre.length : Int) = ((pre ++ ',' :: p :: ps).length : Int) - 1) := by
        simp only [List.length_append, List.length_cons]
        push_cast
        omega
      have h2 : ¬ ((pre ++ ',' :: p :: ps).getLast? = some ',') := by
        rw [List.getLast?_append_of_ne_nil _ (by simp), List.getLast?_cons_cons]
        intro hl
        exact hp (List.mem_of_getLast?_eq_some hl)
      rw [if_neg h1, if_neg h2]
  · rw [lastIndexOf_not_mem ',' v hc]
    have h1 : ¬ ((-1 : Int) = (v.length : Int) - 1) := by omega
    have h2 : ¬ (v.getLast? = some ',') := fun hl => hc (List.mem_of_getLast?_eq_some hl)
    rw [if_neg h1, if_neg h2]

/-- What `onSubmit` does with an input that passes the presence check. -/
theorem onSubmit_of_names (toLowerCase htmlsceDc encodeURIComponent : JSStr → JSStr)
    (box : JSStr → Option Checkbox) (c : Controls) (s : GraphCtlState)
    (hv : s.nmValue ≠ []) (hp : DFPX.isPrefixOf s.nmValue = false) :
    onSubmit toLowerCase htmlsceDc encodeURIComponent box c s =
      (SubmitOutcome.formUrlCalled
          (rowIds toLowerCase htmlsceDc (splitComma (dropTrailingComma s.nmValue)) s.nrIds).bHasId
          (rowIds toLowerCase htmlsceDc (splitComma (dropTrailingComma s.nmValue)) s.nrIds).ni
          (checkedElements box elements []) (dropTrailingComma s.nmValue)
          (formUrl encodeURIComponent c
            (rowIds toLowerCase htmlsceDc (splitComma (dropTrailingComma s.nmValue))
              s.nrIds).bHasId
            (rowIds toLowerCase htmlsceDc (splitComma (dropTrailingComma s.nmValue))
              s.nrIds).ni
            (checkedElements box elements []) (dropTrailingComma s.nmValue)),
        { errdlg := s.errdlg,
          nrIds := (rowIds toLowerCase htmlsceDc (splitComma (dropTrailingComma s.nmValue))
            s.nrIds).nrids,
          nmValue := dropTrailingComma s.nmValue }) := by
  have hcond : ¬ (s.nmValue = [] ∨ s.nmValue.length = 0 ∨ DFPX.isPrefixOf s.nmValue = true) := by
    rintro (h | h | h)
    · exact hv h
    · exact hv (List.length_eq_zero.1 h)
    · rw [hp] at h
      cases h
  unfold onSubmit
  simp only [hcond, ↓reduceIte, onSubmit_name_list s.nmValue hv]

theorem splitCommaFrom_ne_nil (s cur : JSStr) : splitCommaFrom s cur ≠ [] := by
  induction s generalizing cur with
  | nil => simp [splitCommaFrom]
  | cons c cs ih =>
    unfold splitCommaFrom
    split
    · simp
    · exact ih _

/-- The pieces of `split(',')` contain no comma and, joined with commas, give the string
back. -/
theorem splitCommaFrom_spec (s : JSStr) :
    ∀ cur : JSStr, ',' ∉ cur →
      [','].intercalate (splitCommaFrom s cur) = cur ++ s ∧
      ∀ p : JSStr, p ∈ splitCommaFrom s cur → ',' ∉ p := by
  induction s with
  | nil =>
    intro cur hcur
    simp [splitCommaFrom, List.intercalate, hcur]
  | cons c cs ih =>
    intro cur hcur
    unfold splitCommaFrom
    split
    · rename_i hc
      obtain ⟨h1, h2⟩ := ih [] (by simp)
      constructor
      · rcases hL : splitCommaFrom cs [] with _ | ⟨b, L⟩
        · exact absurd hL (splitCommaFrom_ne_nil cs [])
        · rw [hL] at h1
          simp only [List.nil_append] at h1
          rw [← h1, hc]
          simp [List.intercalate, List.intersperse]
      · intro p hp
        rcases List.mem_cons.1 hp with h | h
        · rw [h]
          exact hcur
        · exact h2 p h
    · rename_i hc
      have hcur' : ',' ∉ cur ++ [c] := by
        simp only [List.mem_append, List.mem_singleton, not_or]
        exact ⟨hcur, fun e => hc e.symm⟩
      obtain ⟨h1, h2⟩ := ih (cur ++ [c]) hcur'
      exact ⟨by rw [h1]; simp, h2⟩

theorem splitComma_spec (s : JSStr) :
    [','].intercalate (splitComma s) = s ∧ ∀ p : JSStr, p ∈ splitComma s → ',' ∉ p := by
  have := splitCommaFrom_spec s [] (by simp)
  simpa [splitComma] using this

/-- The block of `onSubmit` that computes the row ids: there is a matching `m` of names
to record indices such that entry `i` of `ni` is the `nid` of the first non-null, not yet
consumed record whose name equals the lower-cased name `i`, or the empty string. -/
theorem rowIds_matching (toLowerCase htmlsceDc : JSStr → JSStr) (snms : List JSStr)
    (nrIds : List (Option NameRec)) (hne : nrIds ≠ []) :
    ∃ m : List (Option Nat),
      m.length = snms.length ∧
      (rowIds toLowerCase htmlsceDc snms nrIds).ni.length = snms.length ∧
      (∀ (i : Nat) (snm : JSStr), snms[i]? = some snm →
        RowIdOf (fun r => htmlsceDc (lk2SgV (toLowerCase r.name))) nrIds m
          (rowIds toLowerCase htmlsceDc snms nrIds).ni i (toLowerCase snm)) ∧
      (∀ i k j : Nat, m[i]? = some (some j) → m[k]? = some (some j) → i = k) ∧
      (∀ (j : Nat) (r : NameRec),
        (rowIds toLowerCase htmlsceDc snms nrIds).nrids[j]? = some (some r) ↔
          nrIds[j]? = some (some r) ∧ ¬ ConsumedBefore m snms.length j) ∧
      ((rowIds toLowerCase htmlsceDc snms nrIds).bHasId = true ↔
        ∃ i j : Nat, m[i]? = some (some j)) := by
  have hlen : nrIds.length > 0 := List.length_pos.2 hne
  obtain ⟨m, hm⟩ := @rowIdInv_loop toLowerCase
    (fun r => htmlsceDc (lk2SgV (toLowerCase r.name))) nrIds snms [] []
    { nrids := nrIds, ni := [], bHasId := false } (rowIdInv_init _ _ _)
  have hrun : rowIds toLowerCase htmlsceDc snms nrIds =
      rowIdLoop toLowerCase (fun r => htmlsceDc (lk2SgV (toLowerCase r.name))) snms
        { nrids := nrIds, ni := [], bHasId := false } := by
    simp [rowIds, hlen]
  rw [hrun]
  simp only [List.nil_append] at hm
  obtain ⟨hml, hnl, hnr, hper, hb⟩ := hm
  refine ⟨m, hml, hnl, hper, ?_, hnr, hb⟩
  have key : ∀ i k j : Nat, k < i → m[i]? = some (some j) → m[k]? = some (some j) → False := by
    intro i k j hki hi hk
    have hil : i < snms.length := by
      by_contra hc
      rw [List.getElem?_eq_none (by omega)] at hi
      cases hi
    obtain ⟨r, ⟨_, hcb, _⟩, _⟩ := (hper i snms[i] (List.getElem?_eq_getElem hil)).1 j hi
    exact hcb ⟨k, hki, hk⟩
  intro i k j hi hk
  rcases Nat.lt_trichotomy i k with h | h | h
  · exact (key k i j h hk hi).elim
  · exact h
  · exact (key i k j h hi hk).elim

/-! ## The claims -/

/-- C1, as stated, fails: when `zkAjaxReqFn` is called twice with the same `val` and the
first request has not completed, the guard `ztip.lastVal !== val` is false, the first
request is neither aborted nor has its handler cleared, and two requests are in flight. -/
theorem C1_same_val_two_in_flight :
    inFlightCount (tipRun id tipInit sameValTwice) = 2 ∧
    (tipRun id tipInit sameValTwice).xhrs[0]? =
      some { handlerLive := true, val := some "T15".toList, status := XhrStatus.inFlight } ∧
    (tipRun id tipInit sameValTwice).req = some 1 := by
  decide

/-- C1, amended: for every sequence of `zkAjaxReqFn` calls, request completions (with any
reply) and `zkOnHide` calls in which no `zkAjaxReqFn` call passes a `val` equal to
`zkTltip.lastVal` while the tracked request is still in flight: every request in flight
is the one tracked in `zkTltip.req`, so at most one lookup request is in flight; every
request that was aborted had its handler cleared; and a further call with another `val`
while the tracked request is in flight leaves that request with its handler cleared and
aborted. A call whose `val` equals `zkTltip.lastVal` changes no existing request. -/
theorem C1_superseded_request_aborted (resetReqFlags : TipFlags → TipFlags)
    (evs : List TipEvent) (h : freshVals resetReqFlags tipInit evs = true) :
    InFlightTracked (tipRun resetReqFlags tipInit evs) ∧
    inFlightCount (tipRun resetReqFlags tipInit evs) ≤ 1 ∧
    AbortedCleared (tipRun resetReqFlags tipInit evs) ∧
    (∀ (ok : Bool) (val : Option JSStr) (r : Nat) (x : Xhr),
      (tipRun resetReqFlags tipInit evs).req = some r →
      (tipRun resetReqFlags tipInit evs).xhrs[r]? = some x →
      x.status = XhrStatus.inFlight →
      (tipRun resetReqFlags tipInit evs).lastVal ≠ val →
      (zkAjaxReqFn ok val (tipRun resetReqFlags tipInit evs)).1.xhrs[r]? =
        some { handlerLive := false, val := x.val, status := XhrStatus.aborted }) ∧
    (∀ (ok : Bool) (i : Nat) (x : Xhr),
      (tipRun resetReqFlags tipInit evs).xhrs[i]? = some x →
      (zkAjaxReqFn ok (tipRun resetReqFlags tipInit evs).lastVal
        (tipRun resetReqFlags tipInit evs)).1.xhrs[i]? = some x) := by
  have h1 : InFlightTracked tipInit := by
    intro i x hx
    simp [tipInit] at hx
  have h3 : AbortedCleared tipInit := by
    intro i x hx
    simp [tipInit] at hx
  obtain ⟨g1, g3⟩ := good_tipRun resetReqFlags evs tipInit h1 h3 h
  refine ⟨g1, inFlightCount_le_one g1, g3, ?_, ?_⟩
  · intro ok val r x hr hx hst hv
    exact zkAjaxReqFn_aborts_tracked _ ok val r x hr hx hst hv
  · intro ok i x hx
    exact zkAjaxReqFn_same_val_keeps _ ok i x hx

/-- C1, amended, at a concrete run: a lookup superseded by a lookup for another name,
whose reply does not parse; a third lookup hidden before it completes and then repeated
for the same name. -/
theorem C1_superseded_request_aborted_witness :
    freshVals id tipInit supersededRun = true ∧
    (tipRun id tipInit supersededRun).xhrs =
      [{ handlerLive := false, val := some "T15".toList, status := XhrStatus.aborted },
       { handlerLive := false, val := some "M2".toList, status := XhrStatus.aborted },
       { handlerLive := false, val := some "D2".toList, status := XhrStatus.aborted },
       { handlerLive := true, val := some "D2".toList, status := XhrStatus.inFlight }] ∧
    InFlightTracked (tipRun id tipInit supersededRun) ∧
    inFlightCount (tipRun id tipInit supersededRun) ≤ 1 ∧
    AbortedCleared (tipRun id tipInit supersededRun) :=
  ⟨by decide, by decide,
    (C1_superseded_request_aborted id supersededRun (by decide)).1,
    (C1_superseded_request_aborted id supersededRun (by decide)).2.1,
    (C1_superseded_request_aborted id supersededRun (by decide)).2.2.1⟩

/-- C2 fails on the code: in the state given by the `GraphCtl` object literal, which has
no `errdlg` property, the test `gct.errdlg === null` is false for `undefined`, no dialog
is created, and reading `gct.errdlg.container` throws; no dialog is shown, for the empty
input and for the placeholder text alike. -/
theorem C2_onSubmit_throws_without_dialog :
    onSubmit id id id noBoxes defaultControls (graphCtlLiteral []) =
      (SubmitOutcome.typeError, graphCtlLiteral []) ∧
    onSubmit id id id noBoxes defaultControls (graphCtlLiteral "Type in comma separated".toList) =
      (SubmitOutcome.typeError, graphCtlLiteral "Type in comma separated".toList) := by
  decide

/-- C3: `GraphCtl.formUrl` navigates to `steelgraph.php?nm=` + `encodeURIComponent(nmv)`,
followed in this order by `&ni=` + `ni` joined with `,` exactly when `bHasId`; `&sz=` +
the size value exactly when it differs from `'2'`; `&el=` + `encodeURIComponent` of `el`
with one trailing `,` removed exactly when `el` is non-empty; `&avg=1` exactly when `avg`
is checked; `&hrn=1` or `&hrn=0` by the `hrn` checkbox; and `&gm=` + the selected
grouping index. -/
theorem C3_formUrl_query_string (encodeURIComponent : JSStr → JSStr) (c : Controls)
    (bHasId : Bool) (ni : List (Option JSStr)) (el nmv : JSStr) :
    formUrl encodeURIComponent c bHasId ni el nmv =
      "steelgraph.php?nm=".toList ++ encodeURIComponent nmv
        ++ (if bHasId = true then "&ni=".toList ++ [','].intercalate (ni.map elemStr) else [])
        ++ (if c.szVal ≠ ['2'] then "&sz=".toList ++ c.szVal else [])
        ++ (if el ≠ [] then "&el=".toList ++ encodeURIComponent (dropTrailingComma el) else [])
        ++ (if c.avgChecked = true then "&avg=1".toList else [])
        ++ (if c.hrnChecked = true then "&hrn=1".toList else "&hrn=0".toList)
        ++ "&gm=".toList ++ (toString c.gmSelectedIndex).toList := by
  unfold formUrl
  have hel : (el.length ≠ 0) = (el ≠ []) := by simp
  simp only [hel, joinComma_eq_intercalate, defSz]
  by_cases h1 : bHasId = true <;> by_cases h2 : c.szVal = ['2'] <;> by_cases h3 : el = [] <;>
    by_cases h4 : c.avgChecked = true <;> by_cases h5 : c.hrnChecked = true <;>
    simp [h1, h2, h3, h4, h5, formUrl_el_eq]

/-- C4: `zkTltip.getGRHoverData` returns true exactly when some entry's rect contains the
mouse point taken relative to the image (all four edges inclusive); when it returns
true, `zkTltip.activeImgTip` afterwards is the smallest index of such an entry; when no
rect contains the point it returns false. -/
theorem C4_getGRHoverData_first_hit (attachEvent : Bool) (vectData : List VectEntry)
    (cmx cmy : Int) (imgOffset sc : Point) (s : HoverState) :
    ((getGRHoverData attachEvent vectData cmx cmy imgOffset sc s).2 = true ↔
      ∃ (i : Nat) (o : VectEntry), vectData[i]? = some o ∧
        InRect (cmx - imgOffset.x + sc.x) (cmy - imgOffset.y) o.rect) ∧
    ((getGRHoverData attachEvent vectData cmx cmy imgOffset sc s).2 = true →
      ∃ (i : Nat) (o : VectEntry), vectData[i]? = some o ∧
        InRect (cmx - imgOffset.x + sc.x) (cmy - imgOffset.y) o.rect ∧
        (∀ (j : Nat) (o' : VectEntry), j < i → vectData[j]? = some o' →
          ¬ InRect (cmx - imgOffset.x + sc.x) (cmy - imgOffset.y) o'.rect) ∧
        (getGRHoverData attachEvent vectData cmx cmy imgOffset sc s).1.activeImgTip = (i : Int)) ∧
    ((∀ (i : Nat) (o : VectEntry), vectData[i]? = some o →
        ¬ InRect (cmx - imgOffset.x + sc.x) (cmy - imgOffset.y) o.rect) →
      (getGRHoverData attachEvent vectData cmx cmy imgOffset sc s).2 = false) := by
  rcases hsc : scanRects (cmx - imgOffset.x + sc.x) (cmy - imgOffset.y) vectData 0 with _ | ⟨i, o⟩
  · have hn := scanRects_none hsc
    have hres : (getGRHoverData attachEvent vectData cmx cmy imgOffset sc s).2 = false := by
      simp [getGRHoverData, hsc]
    refine ⟨?_, ?_, fun _ => hres⟩
    · rw [hres]
      constructor
      · intro hc; cases hc
      · rintro ⟨i, o, ho, hin⟩
        exact absurd hin (hn i o ho)
    · rw [hres]
      intro hc; cases hc
  · obtain ⟨_, h2, h3, h4⟩ := scanRects_some hsc
    simp only [Nat.sub_zero] at h2 h4
    have hres : (getGRHoverData attachEvent vectData cmx cmy imgOffset sc s).2 = true := by
      simp only [getGRHoverData, hsc]
      split <;> rfl
    have htip : (getGRHoverData attachEvent vectData cmx cmy imgOffset sc s).1.activeImgTip
        = (i : Int) := by
      simp only [getGRHoverData, hsc]
      split
      · rfl
      · rename_i hne
        simpa using hne
    refine ⟨?_, fun _ => ⟨i, o, h2, h3, h4, htip⟩, ?_⟩
    · rw [hres]
      exact ⟨fun _ => ⟨i, o, h2, h3⟩, fun _ => rfl⟩
    · intro hall
      exact absurd h3 (hall i o h2)

/-- C5 fails on the code: for the input `,` the presence check passes, the trailing comma
is then removed, and `formUrl` is called with the empty name list. -/
theorem C5_onSubmit_comma_only :
    (onSubmit id id id noBoxes defaultControls (graphCtlLiteral [','])).1 =
      SubmitOutcome.formUrlCalled false [] [] [] "steelgraph.php?nm=&hrn=0&gm=0".toList := by
  decide

/-- C6, as stated, fails: for the response text `"abc"`, which parses to a string and not
to an array, the test `valArray.length > 0` holds and `suggestionsObj.show` is called
with the string. -/
theorem C6_onReady_shows_string :
    exampleParse ['"', 'a', 'b', 'c', '"'] = some (Json.str ['a', 'b', 'c']) ∧
    onReady exampleParse (fun _ => false) false ['"', 'a', 'b', 'c', '"'] =
      some [SgCall.show (Json.str ['a', 'b', 'c'])] :=
  ⟨rfl, rfl⟩

/-- C6, amended: in the `onReady` callback of `GraphCtl.getSuggestions`, when the response
text is empty or parses to an empty array, `suggestionsObj.show` is not called and the
list is hidden if it was visible. `suggestionsObj.show` is called, with the parsed value
and as the only call, exactly when the response text is non-empty and parses to a
non-null value whose `length` is greater than 0: a non-empty array, a non-empty string,
or an object whose `length` property compares greater than 0. With a parsed array it is
called exactly when the array is non-empty. For any other parsed value the list is hidden
if it was visible, and nothing is called when `JSON.parse` throws. -/
theorem C6_onReady_show_iff_positive_length (parse : JSStr → Option Json)
    (gtZero : Json → Bool) (isVisible : Bool) (responseText : JSStr) :
    ((responseText = [] ∨ parse responseText = some (Json.arr [])) →
      onReady parse gtZero isVisible responseText =
        some (if isVisible = true then [SgCall.hide] else [])) ∧
    (∀ v : Json,
      (∃ calls : List SgCall, onReady parse gtZero isVisible responseText = some calls ∧
          SgCall.show v ∈ calls) ↔
        (responseText ≠ [] ∧ parse responseText = some v ∧
          lengthGtZero gtZero v = true)) ∧
    (∀ v : Json,
      responseText ≠ [] → parse responseText = some v → lengthGtZero gtZero v = true →
        onReady parse gtZero isVisible responseText = some [SgCall.show v]) ∧
    (∀ items : List Json,
      (∃ calls : List SgCall, onReady parse gtZero isVisible responseText = some calls ∧
          SgCall.show (Json.arr items) ∈ calls) ↔
        (responseText ≠ [] ∧ parse responseText = some (Json.arr items) ∧ items ≠ [])) ∧
    (∀ items : List Json, lengthGtZero gtZero (Json.arr items) = true ↔ items ≠ []) ∧
    (∀ s : JSStr, lengthGtZero gtZero (Json.str s) = true ↔ s ≠ []) ∧
    (∀ fields : List (JSStr × Json), lengthGtZero gtZero (Json.obj fields) = true ↔
      ∃ v : Json, fields.lookup "length".toList = some v ∧ gtZero v = true) ∧
    lengthGtZero gtZero Json.null = false ∧
    (∀ b : Bool, lengthGtZero gtZero (Json.bool b) = false) ∧
    (∀ t : JSStr, lengthGtZero gtZero (Json.num t) = false) ∧
    (∀ v : Json,
      responseText ≠ [] → parse responseText = some v → lengthGtZero gtZero v = false →
        onReady parse gtZero isVisible responseText =
          some (if isVisible = true then [SgCall.hide] else [])) ∧
    (responseText ≠ [] → parse responseText = none →
      onReady parse gtZero isVisible responseText = none) := by
  have harrlen : ∀ items : List Json,
      lengthGtZero gtZero (Json.arr items) = true ↔ items ≠ [] := by
    intro items
    simp [lengthGtZero, List.length_pos]
  have hshow : ∀ (v : Json) (calls : List SgCall),
      onReady parse gtZero isVisible responseText = some calls → SgCall.show v ∈ calls →
      responseText ≠ [] ∧ parse responseText = some v ∧ lengthGtZero gtZero v = true := by
    intro v calls hc hv
    unfold onReady at hc
    by_cases ht : responseText = []
    · subst ht
      cases isVisible <;> simp [lengthGtZero] at hc <;> subst hc <;> simp at hv
    · simp only [ne_eq, ht, not_false_eq_true, if_true] at hc
      rcases hp : parse responseText with _ | w
      · simp [hp] at hc
      · simp only [hp] at hc
        split at hc
        · rename_i hcond
          simp only [Option.some.injEq] at hc
          subst hc
          simp only [List.mem_singleton, SgCall.show.injEq] at hv
          subst hv
          simp only [Bool.and_eq_true] at hcond
          exact ⟨ht, rfl, hcond.2⟩
        · cases isVisible <;> simp at hc <;> subst hc <;> simp at hv
  have hpos : ∀ v : Json,
      responseText ≠ [] → parse responseText = some v → lengthGtZero gtZero v = true →
        onReady parse gtZero isVisible responseText = some [SgCall.show v] := by
    intro v ht hp hl
    cases v with
    | null => simp [lengthGtZero] at hl
    | bool b => simp [onReady, ht, hp, hl]
    | num t => simp [onReady, ht, hp, hl]
    | str s => simp [onReady, ht, hp, hl]
    | arr items => simp [onReady, ht, hp, hl]
    | obj fields => simp [onReady, ht, hp, hl]
  have hiff : ∀ v : Json,
      (∃ calls : List SgCall, onReady parse gtZero isVisible responseText = some calls ∧
          SgCall.show v ∈ calls) ↔
        (responseText ≠ [] ∧ parse responseText = some v ∧
          lengthGtZero gtZero v = true) := by
    intro v
    constructor
    · rintro ⟨calls, hc, hv⟩
      exact hshow v calls hc hv
    · rintro ⟨ht, hp, hl⟩
      exact ⟨_, hpos v ht hp hl, by simp⟩
  refine ⟨?_, hiff, hpos, ?_, harrlen, ?_, ?_, rfl, fun _ => rfl, fun _ => rfl, ?_, ?_⟩
  · rintro (ht | hp)
    · subst ht
      cases isVisible <;> simp [onReady, lengthGtZero]
    · by_cases ht : responseText = []
      · subst ht
        cases isVisible <;> simp [onReady, lengthGtZero]
      · cases isVisible <;> simp [onReady, ht, hp, lengthGtZero]
  · intro items
    rw [hiff (Json.arr items), harrlen items]
  · intro s
    simp [lengthGtZero, List.length_pos]
  · intro fields
    simp only [lengthGtZero]
    split
    · rename_i v hv
      constructor
      · intro hg
        exact ⟨v, hv, hg⟩
      · rintro ⟨w, hw, hg⟩
        have hwv : some w = some v := hw.symm.trans hv
        cases hwv
        exact hg
    · rename_i hn
      constructor
      · intro hc
        cases hc
      · rintro ⟨w, hw, _⟩
        have hwn : some w = none := hw.symm.trans hn
        cases hwn
  · intro v ht hp hl
    cases isVisible <;> simp [onReady, ht, hp, hl]
  · intro ht hp
    simp [onReady, ht, hp]

/-- C7: `lk2SgV(s)` keeps only the name: if `s` contains `(` the result is the part of `s`
strictly before its last `(`, otherwise it is `s` unchanged; for
`s = name + '(' + alt + ')'` with no `(` in `name` and `alt` the result is `name`. -/
theorem C7_lk2SgV_keeps_name (s : JSStr) :
    ('(' ∈ s → ∃ pre post : JSStr, s = pre ++ '(' :: post ∧ '(' ∉ post ∧ lk2SgV s = pre) ∧
    ('(' ∉ s → lk2SgV s = s) ∧
    (∀ name alt : JSStr, '(' ∉ name → '(' ∉ alt →
      s = name ++ '(' :: (alt ++ [')']) → lk2SgV s = name) := by
  refine ⟨?_, lk2SgV_not_mem s, ?_⟩
  · intro h
    obtain ⟨pre, post, he, hp⟩ := exists_last_occurrence '(' s h
    exact ⟨pre, post, he, hp, by rw [he]; exact lk2SgV_append pre post hp⟩
  · intro name alt _ halt he
    rw [he]
    apply lk2SgV_append
    simp [halt]

/-- C7 at a concrete input: a suggestion with the maker in parentheses. -/
theorem C7_lk2SgV_keeps_name_witness :
    lk2SgV "Jessop T15(Jessop Steel)".toList = "Jessop T15".toList :=
  (C7_lk2SgV_keeps_name "Jessop T15(Jessop Steel)".toList).2.2
    "Jessop T15".toList "Jessop Steel".toList (by decide) (by decide) (by decide)

/-- C8 fails on the code: `lk2SgV` returns the kept part of its argument as it is, so an
`&nbsp;` in the name stays in the result, with or without alternates after it. -/
theorem C8_lk2SgV_keeps_nbsp :
    lk2SgV "Jessop&nbsp;T15".toList = "Jessop&nbsp;T15".toList ∧
    lk2SgV "Jessop&nbsp;T15(Jessop Steel)".toList = "Jessop&nbsp;T15".toList ∧
    lk2SgV ['T', ' ', '1'] = ['T', ' ', '1'] := by
  decide

/-- C9: `GraphCtl.getSuggestions` looks up only the fragment after the last comma of the
input value (all of it when there is no comma) with every `%` removed. It issues a
request exactly when that fragment is non-empty and is not `*`; the value sent is
`htmlscEc` of the fragment with every `*` replaced by `%`, which contains no `*`. -/
theorem C9_getSuggestions_fragment (htmlscEc encodeURIComponent : JSStr → JSStr)
    (v : JSStr) :
    ((',' ∉ v → lastFragment v = v) ∧
      (∀ pre post : JSStr, v = pre ++ ',' :: post → ',' ∉ post → lastFragment v = post)) ∧
    '%' ∉ removePercent (lastFragment v) ∧
    (getSuggestions htmlscEc encodeURIComponent v ≠ none ↔
      removePercent (lastFragment v) ≠ [] ∧ removePercent (lastFragment v) ≠ ['*']) ∧
    (removePercent (lastFragment v) ≠ [] ∧ removePercent (lastFragment v) ≠ ['*'] →
      getSuggestions htmlscEc encodeURIComponent v =
        some ("php/stlajax.php?val=".toList ++
          encodeURIComponent (htmlscEc (starToPercent (removePercent (lastFragment v))))) ∧
      '*' ∉ starToPercent (removePercent (lastFragment v))) := by
  refine ⟨⟨lastFragment_not_mem v, ?_⟩, percent_not_mem_removePercent _, ?_, ?_⟩
  · intro pre post he hp
    rw [he]
    exact lastFragment_append pre post hp
  · rw [getSuggestions_eq]
    split <;> simp_all
  · intro h
    rw [getSuggestions_eq, if_pos h]
    exact ⟨rfl, star_not_mem_starToPercent _⟩

/-- C9 at a concrete input: only the fragment after the last comma is looked up, without
its `%` and with `*` turned into `%`. -/
theorem C9_getSuggestions_fragment_witness :
    getSuggestions escAmp id "M2,T1*&%".toList =
      some "php/stlajax.php?val=T1%&amp;".toList :=
  (((C9_getSuggestions_fragment escAmp id "M2,T1*&%".toList).2.2.2
    ⟨by decide, by decide⟩).1).trans (by decide)

/-- C10: for every name input that passes the presence check and every non-empty
`GraphCtl.nrIds`, `onSubmit` calls `formUrl` with the input minus one trailing comma as the
name list, and with a flag `bHasId` and a row-id list `ni` such that, for the names got by
splitting the name list on `,`: `ni` has one entry per name, in name order; there is a
matching `m` of names to record indices for which entry `i` is the `nid` of the first
non-null, not yet consumed record whose name (lower-cased, cut by `lk2SgV`, decoded by
`htmlsceDc`) equals the lower-cased name `i`, or the empty string when there is none; no
record is matched to two names; the records left non-null in `GraphCtl.nrIds` are those
not matched; and `bHasId` is true exactly when some name was matched. -/
theorem C10_onSubmit_row_ids (toLowerCase htmlsceDc encodeURIComponent : JSStr → JSStr)
    (box : JSStr → Option Checkbox) (c : Controls) (s : GraphCtlState)
    (hne : s.nrIds ≠ []) (hv : s.nmValue ≠ []) (hp : DFPX.isPrefixOf s.nmValue = false) :
    ∃ (bHasId : Bool) (ni : List (Option JSStr)) (m : List (Option Nat)),
      (onSubmit toLowerCase htmlsceDc encodeURIComponent box c s).1 =
        SubmitOutcome.formUrlCalled bHasId ni (checkedElements box elements [])
          (dropTrailingComma s.nmValue)
          (formUrl encodeURIComponent c bHasId ni (checkedElements box elements [])
            (dropTrailingComma s.nmValue)) ∧
      [','].intercalate (splitComma (dropTrailingComma s.nmValue)) =
        dropTrailingComma s.nmValue ∧
      (∀ p : JSStr, p ∈ splitComma (dropTrailingComma s.nmValue) → ',' ∉ p) ∧
      m.length = (splitComma (dropTrailingComma s.nmValue)).length ∧
      ni.length = (splitComma (dropTrailingComma s.nmValue)).length ∧
      (∀ (i : Nat) (snm : JSStr),
        (splitComma (dropTrailingComma s.nmValue))[i]? = some snm →
        RowIdOf (fun r => htmlsceDc (lk2SgV (toLowerCase r.name))) s.nrIds m ni i
          (toLowerCase snm)) ∧
      (∀ i k j : Nat, m[i]? = some (some j) → m[k]? = some (some j) → i = k) ∧
      (∀ (j : Nat) (r : NameRec),
        (onSubmit toLowerCase htmlsceDc encodeURIComponent box c s).2.nrIds[j]? =
            some (some r) ↔
          s.nrIds[j]? = some (some r) ∧
            ¬ ConsumedBefore m (splitComma (dropTrailingComma s.nmValue)).length j) ∧
      (bHasId = true ↔ ∃ i j : Nat, m[i]? = some (some j)) := by
  obtain ⟨m, h1, h2, h3, h4, h5, h6⟩ := rowIds_matching toLowerCase htmlsceDc
    (splitComma (dropTrailingComma s.nmValue)) s.nrIds hne
  obtain ⟨g1, g2⟩ := splitComma_spec (dropTrailingComma s.nmValue)
  rw [onSubmit_of_names toLowerCase htmlsceDc encodeURIComponent box c s hv hp]
  exact ⟨_, _, m, rfl, g1, g2, h1, h2, h3, h4, h5, h6⟩

/-- C10 at a concrete input: `m2,m2,t15,` is submitted with one recorded `M2(AISI)` and
one recorded `T15`; the second `m2` gets the empty row id. -/
theorem C10_onSubmit_row_ids_witness :
    exampleSubmit.nrIds ≠ [] ∧ exampleSubmit.nmValue ≠ [] ∧
    DFPX.isPrefixOf exampleSubmit.nmValue = false ∧
    (onSubmit asciiLower id id noBoxes defaultControls exampleSubmit).1 =
      SubmitOutcome.formUrlCalled true [some "4620".toList, some [], some "71".toList] []
        "m2,m2,t15".toList "steelgraph.php?nm=m2,m2,t15&ni=4620,,71&hrn=0&gm=0".toList ∧
    ∃ (bHasId : Bool) (ni : List (Option JSStr)) (m : List (Option Nat)),
      (onSubmit asciiLower id id noBoxes defaultControls exampleSubmit).1 =
        SubmitOutcome.formUrlCalled bHasId ni (checkedElements noBoxes elements [])
          (dropTrailingComma exampleSubmit.nmValue)
          (formUrl id defaultControls bHasId ni (checkedElements noBoxes elements [])
            (dropTrailingComma exampleSubmit.nmValue)) ∧
      [','].intercalate (splitComma (dropTrailingComma exampleSubmit.nmValue)) =
        dropTrailingComma exampleSubmit.nmValue ∧
      (∀ p : JSStr, p ∈ splitComma (dropTrailingComma exampleSubmit.nmValue) → ',' ∉ p) ∧
      m.length = (splitComma (dropTrailingComma exampleSubmit.nmValue)).length ∧
      ni.length = (splitComma (dropTrailingComma exampleSubmit.nmValue)).length ∧
      (∀ (i : Nat) (snm : JSStr),
        (splitComma (dropTrailingComma exampleSubmit.nmValue))[i]? = some snm →
        RowIdOf (fun r => id (lk2SgV (asciiLower r.name))) exampleSubmit.nrIds m ni i
          (asciiLower snm)) ∧
      (∀ i k j : Nat, m[i]? = some (some j) → m[k]? = some (some j) → i = k) ∧
      (∀ (j : Nat) (r : NameRec),
        (onSubmit asciiLower id id noBoxes defaultControls exampleSubmit).2.nrIds[j]? =
            some (some r) ↔
          exampleSubmit.nrIds[j]? = some (some r) ∧
            ¬ ConsumedBefore m (splitComma (dropTrailingComma exampleSubmit.nmValue)).length j) ∧
      (bHasId = true ↔ ∃ i j : Nat, m[i]? = some (some j)) :=
  ⟨by decide, by decide, by decide, by decide,
    C10_onSubmit_row_ids asciiLower id id noBoxes defaultControls exampleSubmit
      (by decide) (by decide) (by decide)⟩

/-- C11: `GraphCtl.init` runs `initRIds` once on the empty `GraphCtl.nrIds`; in every state
reached from there by edits of the name input, `setSelected`, `srchBl` and `onSubmit`
(with a `clrArray` that empties the array), no two non-null entries of `GraphCtl.nrIds`
have the same `namePos`. When `setSelected` records an id for a name position that
already has a non-null entry, the array keeps its length and that entry is replaced by
the new record. -/
theorem C11_nrIds_distinct_namePos (toLowerCase htmlsceDc encodeURIComponent : JSStr → JSStr)
    (clrArray : List (Option NameRec) → List (Option NameRec))
    (hclr : ∀ l : List (Option NameRec), clrArray l = [])
    (nmCtl : JSStr) (ni : Option JSStr) (errdlg : DlgRef) (nmValue : JSStr)
    (evs : List CtlEvent) :
    NoDupPos (ctlRun toLowerCase htmlsceDc encodeURIComponent clrArray
      (ctlInit nmCtl ni errdlg nmValue) evs).nrIds ∧
    ∀ (x : SgSelection) (i : Nat) (r : NameRec),
      (ctlRun toLowerCase htmlsceDc encodeURIComponent clrArray
        (ctlInit nmCtl ni errdlg nmValue) evs).nrIds[i]? = some (some r) →
      r.namePos = selectedPos x (ctlRun toLowerCase htmlsceDc encodeURIComponent clrArray
        (ctlInit nmCtl ni errdlg nmValue) evs) →
      (setSelected (some x) (ctlRun toLowerCase htmlsceDc encodeURIComponent clrArray
        (ctlInit nmCtl ni errdlg nmValue) evs)).nrIds.length =
        (ctlRun toLowerCase htmlsceDc encodeURIComponent clrArray
          (ctlInit nmCtl ni errdlg nmValue) evs).nrIds.length ∧
      (setSelected (some x) (ctlRun toLowerCase htmlsceDc encodeURIComponent clrArray
        (ctlInit nmCtl ni errdlg nmValue) evs)).nrIds[i]? =
        some (some { name := x.name, nid := x.nid, namePos := r.namePos }) := by
  refine ⟨?_, ?_⟩
  · apply noDupPos_ctlRun _ _ _ _ hclr
    exact noDupPos_initRIds nmCtl ni
  · intro x i r hi hp
    exact setSelected_replaces x _ i r hi hp

/-- C11 at a concrete session: the page is opened for `M2,T15` with row ids `4620,71`, the
second name is picked again, the list is submitted and a third name is picked. -/
theorem C11_nrIds_distinct_namePos_witness :
    (∀ l : List (Option NameRec), emptyArray l = []) ∧
    (ctlRun asciiLower id id emptyArray
      (ctlInit "M2,T15".toList (some "4620,71".toList) DlgRef.undefined "M2,T15".toList)
      (exampleSession.take 2)).nrIds =
      [some { name := "M2".toList, nid := some "4620".toList, namePos := 0 },
       some { name := "T1(AISI)".toList, nid := some "88".toList, namePos := 1 }] ∧
    (ctlRun asciiLower id id emptyArray
      (ctlInit "M2,T15".toList (some "4620,71".toList) DlgRef.undefined "M2,T15".toList)
      exampleSession).nrIds =
      [none, none, some { name := "D2".toList, nid := some "5".toList, namePos := 2 }] ∧
    NoDupPos (ctlRun asciiLower id id emptyArray
      (ctlInit "M2,T15".toList (some "4620,71".toList) DlgRef.undefined "M2,T15".toList)
      exampleSession).nrIds :=
  ⟨fun _ => rfl, by decide, by decide,
    (C11_nrIds_distinct_namePos asciiLower id id emptyArray (fun _ => rfl)
      "M2,T15".toList (some "4620,71".toList) DlgRef.undefined "M2,T15".toList
      exampleSession).1⟩

end SteelGraph
